import Mathlib

/-!
Shallow embedding of the rodumani video-timeline editor core:

* `TimelineManager` (src/utils/timelineUtils.ts) — tracks, media items,
  the mutation operations (add/move/trim/split/remove), the overlap
  resolver, total-duration recomputation and the undo/redo stacks;
* `EditingSession` and `MCPVideoEditingServer` (src/api/mcpInterface.ts) —
  the directive queue, the editing-status snapshot and the directive
  executor.

Modelling conventions, applied uniformly:

* JS numbers used by the core (frames, durations, 2D parameters) are
  embedded as `Int`; `Math.max` is `max`.
* Generated string identifiers (`generateId`, based on `Date.now` and a
  deterministic random) are embedded as natural numbers drawn from a
  per-manager fresh counter `nextId`; `Date.now()` timestamps stored in
  log entries are modelled as the constant 0 (no claim consults them).
* The `Map` of tracks (insertion-ordered, one entry per key) is a list of
  tracks; in-place mutation of a found object is functional update of the
  first list element with the matching identifier.
* Methods returning a success boolean become functions returning
  `State × Bool`; handlers that `throw` on missing session/track/item
  return `Option` (`none` = thrown error envelope).
* Fields of the source types never consulted by the core logic under
  verification (media manager, generated-asset table, agent registry,
  session identifier strings) are omitted.
-/

/-- Media kinds of `MediaItem.type` (src/Composition.tsx). -/
inductive MediaKind
  | video
  | audio
  | image
  deriving Repr, DecidableEq

/-- A media item placed on a track (`MediaItem`, src/Composition.tsx). -/
structure MediaItem where
  id : Nat
  type : MediaKind
  src : String
  startFrame : Int
  durationInFrames : Int
  x : Int
  y : Int
  width : Int
  height : Int
  opacity : Option Int
  scale : Option Int
  rotation : Option Int
  deriving Repr, DecidableEq

/-- Occupied interval of an item is `[startFrame, endFrame)`. -/
def MediaItem.endFrame (i : MediaItem) : Int :=
  i.startFrame + i.durationInFrames

/-- Track kinds of `Track.type` (src/utils/timelineUtils.ts). -/
inductive TrackKind
  | video
  | audio
  | subtitle
  deriving Repr, DecidableEq

/-- A timeline track (`Track`, src/utils/timelineUtils.ts). -/
structure Track where
  id : Nat
  name : String
  type : TrackKind
  items : List MediaItem
  isLocked : Bool
  isVisible : Bool
  volume : Option Int
  deriving Repr, DecidableEq

/-- The `EditOperation.type` union of the source:
`'cut' | 'trim' | 'move' | 'copy' | 'delete' | 'split'`. -/
inductive EditOpKind
  | cut
  | trim
  | move
  | copy
  | delete
  | split
  deriving Repr, DecidableEq

/-- `EditOperationParameters` (src/utils/timelineUtils.ts); every field is
optional in the source. -/
structure EditOperationParameters where
  action : Option String := none
  item : Option MediaItem := none
  oldStartFrame : Option Int := none
  newStartFrame : Option Int := none
  oldTrackId : Option Nat := none
  newTrackId : Option Nat := none
  oldDuration : Option Int := none
  newDuration : Option Int := none
  trimStart : Option Int := none
  trimEnd : Option Int := none
  splitFrame : Option Int := none
  secondPartId : Option Nat := none
  deriving Repr, DecidableEq

/-- `EditOperation` (src/utils/timelineUtils.ts), an operation-log entry. -/
structure EditOperation where
  id : Nat
  type : EditOpKind
  trackId : Nat
  itemId : Nat
  timestamp : Int
  parameters : EditOperationParameters
  deriving Repr, DecidableEq

/-- State of a `TimelineManager` (src/utils/timelineUtils.ts). -/
structure TimelineState where
  tracks : List Track
  currentFrame : Int := 0
  totalDuration : Int := 0
  fps : Int := 30
  undoStack : List EditOperation := []
  redoStack : List EditOperation := []
  nextId : Nat := 0
  deriving Repr, DecidableEq

/-- A freshly constructed `TimelineManager` (constructor with default fps). -/
def TimelineState.init : TimelineState :=
  { tracks := [] }

/-- `generateId`: returns a fresh identifier and advances the counter. -/
def TimelineState.generateId (s : TimelineState) : Nat × TimelineState :=
  (s.nextId, { s with nextId := s.nextId + 1 })

/-- `getTrack`: `this.tracks.get(trackId)`. -/
def TimelineState.getTrack (s : TimelineState) (trackId : Nat) : Option Track :=
  s.tracks.find? fun t => t.id == trackId

/-- Writing back a mutated track object: the map entry whose key equals
`t.id` holds `t` afterwards (tracks are keyed by identifier, so at most one
entry matches). -/
def TimelineState.setTrack (s : TimelineState) (t : Track) : TimelineState :=
  { s with tracks := s.tracks.map fun u => if u.id == t.id then t else u }

/-- `recordOperation`: push onto the undo stack, clear the redo stack, and
evict the oldest entry when the stack exceeds 100 entries. -/
def TimelineState.recordOperation (s : TimelineState) (op : EditOperation) :
    TimelineState :=
  let pushed := s.undoStack ++ [op]
  { s with
    undoStack := if pushed.length > 100 then pushed.drop 1 else pushed
    redoStack := [] }

/-- In-place mutation of the first item found by identifier (the source
finds the item object with `find`/`findIndex` and mutates it). -/
def updateFirstItem (itemId : Nat) (f : MediaItem → MediaItem) :
    List MediaItem → List MediaItem
  | [] => []
  | i :: rest =>
    if i.id == itemId then f i :: rest
    else i :: updateFirstItem itemId f rest

/-- `resolveOverlaps` (timelineUtils.ts lines 276–295): one pass over the
track's items; every other item whose interval intersects the new item's
interval is pushed past the new item's end (when the new item starts first)
or trimmed down to end at the new item's start (minimum duration 1). -/
def resolveOverlaps (items : List MediaItem) (newItem : MediaItem) :
    List MediaItem :=
  let newItemEnd := newItem.startFrame + newItem.durationInFrames
  items.map fun item =>
    if item.id == newItem.id then item
    else
      let itemEnd := item.startFrame + item.durationInFrames
      if newItemEnd ≤ item.startFrame ∨ newItem.startFrame ≥ itemEnd then
        item
      else if newItem.startFrame < item.startFrame then
        { item with startFrame := newItemEnd }
      else
        { item with durationInFrames := max 1 (newItem.startFrame - item.startFrame) }

/-- Body of `updateTotalDuration`: fold `max` of `start + duration` over
every item of every track, starting from 0. -/
def computeTotalDuration (tracks : List Track) : Int :=
  tracks.foldl
    (fun acc t =>
      t.items.foldl (fun m i => max m (i.startFrame + i.durationInFrames)) acc)
    0

/-- `updateTotalDuration`. -/
def TimelineState.updateTotalDuration (s : TimelineState) : TimelineState :=
  { s with totalDuration := computeTotalDuration s.tracks }

/-- `getTotalDuration`. -/
def TimelineState.getTotalDuration (s : TimelineState) : Int :=
  s.totalDuration

/-- `createTrack` (timelineUtils.ts lines 72–85): always succeeds, returns
the new track; an audio track gets volume 1. -/
def TimelineState.createTrack (s : TimelineState) (name : String)
    (kind : TrackKind) : Track × TimelineState :=
  let (tid, s1) := s.generateId
  let track : Track :=
    { id := tid, name := name, type := kind, items := [], isLocked := false,
      isVisible := true,
      volume := if kind = TrackKind.audio then some 1 else none }
  (track, { s1 with tracks := s1.tracks ++ [track] })

/-- `deleteTrack` (lines 88–90): `this.tracks.delete(trackId)`. It does not
recompute the total duration. -/
def TimelineState.deleteTrack (s : TimelineState) (trackId : Nat) :
    TimelineState × Bool :=
  if s.tracks.any fun t => t.id == trackId then
    ({ s with tracks := s.tracks.filter fun t => t.id != trackId }, true)
  else (s, false)

/-- `addItemToTrack` (lines 103–129): fails on a missing or locked track;
otherwise optionally overwrites the start frame, resolves overlaps against
the existing items, appends the item, recomputes the total duration and
records a `move`-kind operation with `action: 'add'`. -/
def TimelineState.addItemToTrack (s : TimelineState) (trackId : Nat)
    (item : MediaItem) (insertFrame : Option Int) : TimelineState × Bool :=
  match s.getTrack trackId with
  | none => (s, false)
  | some track =>
    if track.isLocked then (s, false)
    else
      let item :=
        match insertFrame with
        | some f => { item with startFrame := f }
        | none => item
      let s1 := s.setTrack { track with items := resolveOverlaps track.items item ++ [item] }
      let s2 := s1.updateTotalDuration
      let (opId, s3) := s2.generateId
      let s4 := s3.recordOperation
        { id := opId, type := EditOpKind.move, trackId := trackId,
          itemId := item.id, timestamp := 0,
          parameters := { action := some "add", item := some item } }
      (s4, true)

/-- `removeItemFromTrack` (lines 132–153): fails on a missing or locked
track or a missing item; otherwise splices out the first matching item,
recomputes the total duration and records a `delete`-kind operation. -/
def TimelineState.removeItemFromTrack (s : TimelineState)
    (trackId itemId : Nat) : TimelineState × Bool :=
  match s.getTrack trackId with
  | none => (s, false)
  | some track =>
    if track.isLocked then (s, false)
    else
      match track.items.find? (fun i => i.id == itemId) with
      | none => (s, false)
      | some removed =>
        let s1 := s.setTrack { track with items := track.items.eraseP fun i => i.id == itemId }
        let s2 := s1.updateTotalDuration
        let (opId, s3) := s2.generateId
        let s4 := s3.recordOperation
          { id := opId, type := EditOpKind.delete, trackId := trackId,
            itemId := itemId, timestamp := 0,
            parameters := { action := some "remove", item := some removed } }
        (s4, true)

/-- Shared tail of `moveItem`: recompute the total duration and record the
`move` operation. -/
def TimelineState.finishMove (s : TimelineState) (trackId itemId : Nat)
    (oldStartFrame newStartFrame : Int) (newTrackId : Option Nat) :
    TimelineState × Bool :=
  let s1 := s.updateTotalDuration
  let (opId, s2) := s1.generateId
  let s3 := s2.recordOperation
    { id := opId, type := EditOpKind.move, trackId := trackId,
      itemId := itemId, timestamp := 0,
      parameters :=
        { oldStartFrame := some oldStartFrame,
          newStartFrame := some newStartFrame,
          oldTrackId := some trackId,
          newTrackId := some (newTrackId.getD trackId) } }
  (s3, true)

/-- `moveItem` (lines 156–199): fails on a missing/locked source track or a
missing item; a same-track move updates the start frame and re-resolves
overlaps in place; a cross-track move fails on a missing/locked target
track and otherwise splices the item out of the source, re-resolves on the
target and appends it there. -/
def TimelineState.moveItem (s : TimelineState) (trackId itemId : Nat)
    (newStartFrame : Int) (newTrackId : Option Nat) : TimelineState × Bool :=
  match s.getTrack trackId with
  | none => (s, false)
  | some sourceTrack =>
    if sourceTrack.isLocked then (s, false)
    else
      match sourceTrack.items.find? (fun i => i.id == itemId) with
      | none => (s, false)
      | some item =>
        let oldStartFrame := item.startFrame
        let moved := { item with startFrame := newStartFrame }
        if newTrackId.getD trackId == trackId then
          let items1 := updateFirstItem itemId (fun _ => moved) sourceTrack.items
          let s1 := s.setTrack { sourceTrack with items := resolveOverlaps items1 moved }
          s1.finishMove trackId itemId oldStartFrame newStartFrame newTrackId
        else
          match s.getTrack (newTrackId.getD trackId) with
          | none => (s, false)
          | some targetTrack =>
            if targetTrack.isLocked then (s, false)
            else
              let s1 := s.setTrack { sourceTrack with items := sourceTrack.items.eraseP fun i => i.id == itemId }
              let s2 := s1.setTrack { targetTrack with items := resolveOverlaps targetTrack.items moved ++ [moved] }
              s2.finishMove trackId itemId oldStartFrame newStartFrame newTrackId

/-- `trimItem` (lines 202–235): fails on a missing/locked track or missing
item; `trimStart` shifts the start and shrinks the duration by the shift
(floored at 1); `trimEnd` recomputes the duration as `trimEnd − start`
(floored at 1); recomputes the total duration and records a `trim`
operation. -/
def TimelineState.trimItem (s : TimelineState) (trackId itemId : Nat)
    (trimStart trimEnd : Option Int) : TimelineState × Bool :=
  match s.getTrack trackId with
  | none => (s, false)
  | some track =>
    if track.isLocked then (s, false)
    else
      match track.items.find? (fun i => i.id == itemId) with
      | none => (s, false)
      | some item =>
        let oldDuration := item.durationInFrames
        let item1 :=
          match trimStart with
          | some ts =>
            { item with
              startFrame := ts,
              durationInFrames := max 1 (item.durationInFrames - (ts - item.startFrame)) }
          | none => item
        let item2 :=
          match trimEnd with
          | some te => { item1 with durationInFrames := max 1 (te - item1.startFrame) }
          | none => item1
        let s1 := s.setTrack { track with items := updateFirstItem itemId (fun _ => item2) track.items }
        let s2 := s1.updateTotalDuration
        let (opId, s3) := s2.generateId
        let s4 := s3.recordOperation
          { id := opId, type := EditOpKind.trim, trackId := trackId,
            itemId := itemId, timestamp := 0,
            parameters :=
              { oldDuration := some oldDuration,
                newDuration := some item2.durationInFrames,
                trimStart := trimStart, trimEnd := trimEnd } }
        (s4, true)

/-- `splitItem` (lines 238–273): fails on a missing/locked track, missing
item, or a split frame not strictly inside the item's occupied interval; on
success the original item keeps `[start, splitFrame)`, a second part with a
fresh identifier occupies `[splitFrame, oldEnd)`, and a `split` operation
is recorded. It does not recompute the total duration. -/
def TimelineState.splitItem (s : TimelineState) (trackId itemId : Nat)
    (splitFrame : Int) : TimelineState × Bool :=
  match s.getTrack trackId with
  | none => (s, false)
  | some track =>
    if track.isLocked then (s, false)
    else
      match track.items.find? (fun i => i.id == itemId) with
      | none => (s, false)
      | some item =>
        let relativeFrame := splitFrame - item.startFrame
        if relativeFrame ≤ 0 ∨ relativeFrame ≥ item.durationInFrames then (s, false)
        else
          let (secondId, s1) := s.generateId
          let secondPart :=
            { item with
              id := secondId, startFrame := splitFrame,
              durationInFrames := item.durationInFrames - relativeFrame }
          let firstPart := { item with durationInFrames := relativeFrame }
          let s2 := s1.setTrack
            { track with
              items := updateFirstItem itemId (fun _ => firstPart) track.items ++ [secondPart] }
          let (opId, s3) := s2.generateId
          let s4 := s3.recordOperation
            { id := opId, type := EditOpKind.split, trackId := trackId,
              itemId := itemId, timestamp := 0,
              parameters := { splitFrame := some splitFrame, secondPartId := some secondId } }
          (s4, true)

/-- `executeOperation` (lines 380–383): the source only logs the operation
to the console; the timeline state is untouched. -/
def TimelineState.executeOperation (s : TimelineState) (_op : EditOperation) :
    TimelineState := s

/-- `executeReverseOperation` (lines 386–389): the source only logs the
operation to the console; the timeline state is untouched. -/
def TimelineState.executeReverseOperation (s : TimelineState)
    (_op : EditOperation) : TimelineState := s

/-- `undo` (lines 356–365): pop the most recent log entry, run the (stub)
reverse execution, and push the entry onto the redo stack. -/
def TimelineState.undo (s : TimelineState) : TimelineState × Bool :=
  match s.undoStack.getLast? with
  | none => (s, false)
  | some op =>
    let s1 := { s with undoStack := s.undoStack.dropLast }
    let s2 := s1.executeReverseOperation op
    ({ s2 with redoStack := s2.redoStack ++ [op] }, true)

/-- `redo` (lines 368–377): pop the redo stack, run the (stub) forward
execution, and push the entry back onto the undo stack. -/
def TimelineState.redo (s : TimelineState) : TimelineState × Bool :=
  match s.redoStack.getLast? with
  | none => (s, false)
  | some op =>
    let s1 := { s with redoStack := s.redoStack.dropLast }
    let s2 := s1.executeOperation op
    ({ s2 with undoStack := s2.undoStack ++ [op] }, true)

/-- Directive kinds of `EditingDirective.type` (src/api/mcpInterface.ts). -/
inductive DirectiveKind
  | cut_sequence
  | add_bgm
  | add_sfx
  | add_text
  | add_transition
  | apply_effect
  deriving Repr, DecidableEq

/-- `EditingDirective` (mcpInterface.ts): identifier, kind, priority and
description; of the parameter bag only the presence of `parameters.asset`
is consulted by the executor (`executeAddBGM`), embedded as `hasAsset`. -/
structure EditingDirective where
  id : Nat
  type : DirectiveKind
  priority : Int
  hasAsset : Bool
  description : String
  deriving Repr, DecidableEq

/-- Coarse session states of `EditingStatus.status`. -/
inductive SessionStatus
  | idle
  | processing
  | completed
  | error
  deriving Repr, DecidableEq

/-- `EditingStatus` (mcpInterface.ts): the derived status snapshot. The
`sessionId` and `generatedAssets` fields are omitted (no claim consults
them). -/
structure EditingStatus where
  currentStep : Nat
  totalSteps : Nat
  status : SessionStatus
  message : String
  completedDirectives : List Nat
  pendingDirectives : List Nat
  deriving Repr, DecidableEq

/-- State of an `EditingSession` (mcpInterface.ts): the owned timeline, the
pending directive queue, the completed-directive identifier list and the
stored status snapshot. -/
structure EditingSession where
  timeline : TimelineState
  pendingDirectives : List EditingDirective
  completedDirectives : List Nat
  editingStatus : EditingStatus
  deriving Repr, DecidableEq

/-- A freshly constructed `EditingSession` (constructor). -/
def EditingSession.init : EditingSession :=
  { timeline := TimelineState.init
    pendingDirectives := []
    completedDirectives := []
    editingStatus :=
      { currentStep := 0, totalSteps := 0, status := SessionStatus.idle,
        message := "Session created", completedDirectives := [],
        pendingDirectives := [] } }

/-- `updateEditingStatus` (mcpInterface.ts lines 538–549): recompute the
stored snapshot from the completed list and the pending queue. -/
def EditingSession.updateEditingStatus (s : EditingSession) : EditingSession :=
  { s with
    editingStatus :=
      { currentStep := s.completedDirectives.length
        totalSteps := s.completedDirectives.length + s.pendingDirectives.length
        status :=
          if s.pendingDirectives.length > 0 then SessionStatus.processing
          else SessionStatus.completed
        message :=
          toString s.completedDirectives.length ++ " tasks completed, " ++
            toString s.pendingDirectives.length ++ " pending"
        completedDirectives := s.completedDirectives
        pendingDirectives := s.pendingDirectives.map fun d => d.id } }

/-- Stable insertion of a directive after every queued directive of lower
or equal priority. -/
def insertDirective (d : EditingDirective) :
    List EditingDirective → List EditingDirective
  | [] => [d]
  | x :: xs =>
    if x.priority ≤ d.priority then x :: insertDirective d xs
    else d :: x :: xs

/-- `this.pendingDirectives.sort((a, b) => a.priority - b.priority)`:
`Array.prototype.sort` is stable (ES2019), embedded as a stable ascending
insertion sort on `priority`. -/
def sortDirectives (l : List EditingDirective) : List EditingDirective :=
  l.foldl (fun acc d => insertDirective d acc) []

/-- `addDirectives` (lines 514–518): append the batch to the pending queue,
stable-sort the whole queue by priority, refresh the snapshot. -/
def EditingSession.addDirectives (s : EditingSession)
    (ds : List EditingDirective) : EditingSession :=
  EditingSession.updateEditingStatus
    { s with pendingDirectives := sortDirectives (s.pendingDirectives ++ ds) }

/-- `getNextDirective` (lines 525–527): `this.pendingDirectives.shift()`. -/
def EditingSession.getNextDirective (s : EditingSession) :
    Option EditingDirective × EditingSession :=
  match s.pendingDirectives with
  | [] => (none, s)
  | d :: rest => (some d, { s with pendingDirectives := rest })

/-- `markDirectiveCompleted` (lines 529–532). -/
def EditingSession.markDirectiveCompleted (s : EditingSession) (did : Nat) :
    EditingSession :=
  EditingSession.updateEditingStatus
    { s with completedDirectives := s.completedDirectives ++ [did] }

/-- `getEditingStatus` (lines 534–536): returns the stored snapshot. -/
def EditingSession.getEditingStatus (s : EditingSession) : EditingStatus :=
  s.editingStatus

/-- `name.includes('BGM')` on a track name. -/
def nameHasBGM (n : String) : Bool :=
  (n.splitOn "BGM").length > 1

/-- `executeAddBGM` (mcpInterface.ts lines 977–988): when the directive
carries an asset, find a track whose name contains `BGM` or create a
`Background Music` audio track; nothing else happens (the item-insertion
step is an unimplemented comment in the source). -/
def MCPVideoEditingServer.executeAddBGM (s : EditingSession)
    (hasAsset : Bool) : EditingSession :=
  if hasAsset then
    match s.timeline.tracks.find? (fun t => nameHasBGM t.name) with
    | some _ => s
    | none =>
      let (_, tl) := s.timeline.createTrack "Background Music" TrackKind.audio
      { s with timeline := tl }
  else s

/-- `executeDirective` (lines 936–970): dispatch on the directive kind; all
six branches are stubs that never fail (`executeAddBGM` is the only one
touching the session at all). -/
def MCPVideoEditingServer.executeDirective (s : EditingSession)
    (d : EditingDirective) : EditingSession :=
  match d.type with
  | DirectiveKind.cut_sequence => s
  | DirectiveKind.add_bgm => MCPVideoEditingServer.executeAddBGM s d.hasAsset
  | DirectiveKind.add_sfx => s
  | DirectiveKind.add_text => s
  | DirectiveKind.add_transition => s
  | DirectiveKind.apply_effect => s

/-- Result payload of `agent.execute_next` (`success` and `message` of the
`ResponseResult`). -/
structure ExecuteNextResult where
  success : Bool
  message : String
  deriving Repr, DecidableEq

/-- `handleExecuteNext` (lines 909–933): on an empty queue answer
`success:false` without touching the session; otherwise pop the head,
execute it and mark it completed. -/
def MCPVideoEditingServer.handleExecuteNext (s : EditingSession) :
    EditingSession × ExecuteNextResult :=
  match s.getNextDirective with
  | (none, s1) => (s1, { success := false, message := "No pending directives" })
  | (some d, s1) =>
    let s2 := MCPVideoEditingServer.executeDirective s1 d
    let s3 := s2.markDirectiveCompleted d.id
    (s3,
      { success := true
        message := "Directive " ++ toString d.id ++ " completed: " ++ d.description })

/-- Optional property assignments of `edit.set_properties`. -/
structure PropertyUpdates where
  x : Option Int := none
  y : Option Int := none
  width : Option Int := none
  height : Option Int := none
  opacity : Option Int := none
  scale : Option Int := none
  rotation : Option Int := none
  deriving Repr, DecidableEq

/-- The per-field conditional assignments of `handleSetProperties`. -/
def applyPropertyUpdates (i : MediaItem) (p : PropertyUpdates) : MediaItem :=
  { i with
    x := p.x.getD i.x
    y := p.y.getD i.y
    width := p.width.getD i.width
    height := p.height.getD i.height
    opacity := match p.opacity with | some v => some v | none => i.opacity
    scale := match p.scale with | some v => some v | none => i.scale
    rotation := match p.rotation with | some v => some v | none => i.rotation }

/-- `handleSetProperties` (mcpInterface.ts lines 802–824): throws on a
missing track or item (`none`), otherwise assigns every supplied property
on the found item and answers `success: true` with the item. There is no
`isLocked` check. -/
def MCPVideoEditingServer.handleSetProperties (s : TimelineState)
    (trackId itemId : Nat) (p : PropertyUpdates) :
    Option (TimelineState × MediaItem) :=
  match s.getTrack trackId with
  | none => none
  | some track =>
    match track.items.find? (fun i => i.id == itemId) with
    | none => none
    | some item =>
      let item2 := applyPropertyUpdates item p
      let s1 := s.setTrack { track with items := updateFirstItem itemId (fun _ => item2) track.items }
      some (s1, item2)

/-- Two occupied intervals `[start, start+duration)` do not properly
intersect: one ends at or before the other starts. -/
def ItemsDisjoint (a b : MediaItem) : Prop :=
  a.endFrame ≤ b.startFrame ∨ b.endFrame ≤ a.startFrame

instance : DecidablePred fun p : MediaItem × MediaItem => ItemsDisjoint p.1 p.2 :=
  fun p => by unfold ItemsDisjoint; infer_instance

instance (a b : MediaItem) : Decidable (ItemsDisjoint a b) := by
  unfold ItemsDisjoint; infer_instance

/-- Per-track non-overlap: no two items of the track properly intersect. -/
def TrackNoOverlap (t : Track) : Prop :=
  t.items.Pairwise ItemsDisjoint

instance (t : Track) : Decidable (TrackNoOverlap t) := by
  unfold TrackNoOverlap; exact List.instDecidablePairwise t.items

/-- The intersection test of `resolveOverlaps`:
`!(newItemEnd <= item.startFrame || newItem.startFrame >= itemEnd)`. -/
def ProperIntersect (n item : MediaItem) : Prop :=
  ¬ (n.endFrame ≤ item.startFrame ∨ n.startFrame ≥ item.endFrame)

instance (a b : MediaItem) : Decidable (ProperIntersect a b) := by
  unfold ProperIntersect; infer_instance

/-- The public mutating calls of `TimelineManager`, as one alphabet. -/
inductive TimelineOp
  | createTrack (name : String) (kind : TrackKind)
  | deleteTrack (trackId : Nat)
  | addItem (trackId : Nat) (item : MediaItem) (insertFrame : Option Int)
  | moveItem (trackId itemId : Nat) (newStartFrame : Int) (newTrackId : Option Nat)
  | trimItem (trackId itemId : Nat) (trimStart trimEnd : Option Int)
  | splitItem (trackId itemId : Nat) (splitFrame : Int)
  | removeItem (trackId itemId : Nat)
  | undo
  | redo
  deriving Repr, DecidableEq

/-- Invoke one public call, keeping only the state. -/
def applyOp (s : TimelineState) : TimelineOp → TimelineState
  | TimelineOp.createTrack n k => (s.createTrack n k).2
  | TimelineOp.deleteTrack tid => (s.deleteTrack tid).1
  | TimelineOp.addItem tid it f => (s.addItemToTrack tid it f).1
  | TimelineOp.moveItem tid iid ns nt => (s.moveItem tid iid ns nt).1
  | TimelineOp.trimItem tid iid a b => (s.trimItem tid iid a b).1
  | TimelineOp.splitItem tid iid f => (s.splitItem tid iid f).1
  | TimelineOp.removeItem tid iid => (s.removeItemFromTrack tid iid).1
  | TimelineOp.undo => s.undo.1
  | TimelineOp.redo => s.redo.1

/-- Run a call sequence left to right. -/
def runOps (s : TimelineState) (ops : List TimelineOp) : TimelineState :=
  ops.foldl applyOp s

/-- A convenient concrete video item (2D placement defaulted). -/
def mkItem (id : Nat) (start dur : Int) : MediaItem :=
  { id := id, type := MediaKind.video, src := "clip", startFrame := start,
    durationInFrames := dur, x := 0, y := 0, width := 1280, height := 720,
    opacity := none, scale := none, rotation := none }

def c1Final : TimelineState :=
  runOps TimelineState.init
    [TimelineOp.createTrack "V" TrackKind.video,
     TimelineOp.addItem 0 (mkItem 100 10 10) none,
     TimelineOp.addItem 0 (mkItem 101 20 10) none,
     TimelineOp.addItem 0 (mkItem 102 0 15) none]

def c2Final : TimelineState :=
  runOps TimelineState.init
    [TimelineOp.createTrack "V" TrackKind.video,
     TimelineOp.addItem 0 (mkItem 100 0 10) none,
     TimelineOp.deleteTrack 0]

def c3Pre : TimelineState := runOps TimelineState.init [TimelineOp.createTrack "V" TrackKind.video]

def c3Post : TimelineState := (c3Pre.addItemToTrack 0 (mkItem 100 0 10) none).1

def c3AfterUndo : TimelineState := c3Post.undo.1

def c9Pre : TimelineState :=
  runOps TimelineState.init [TimelineOp.createTrack "V" TrackKind.video]

def c9After : TimelineState × Bool :=
  c9Pre.addItemToTrack 0 (mkItem 7 0 10) none

def c9WitnessState : TimelineState :=
  { tracks := [{ id := 0, name := "V", type := TrackKind.video, items := [],
                 isLocked := false, isVisible := true, volume := none }],
    nextId := 1 }

def c10Dir : EditingDirective :=
  { id := 1, type := DirectiveKind.add_text, priority := 0, hasAsset := false,
    description := "caption" }

def c10Sess : EditingSession :=
  { EditingSession.init with pendingDirectives := [c10Dir] }

def c5Item : MediaItem := mkItem 1 15 10

def c5NewItem : MediaItem := mkItem 9 10 10

def c6Track : Track :=
  { id := 0, name := "V", type := TrackKind.video, items := [mkItem 5 0 10],
    isLocked := true, isVisible := true, volume := none }

def c6State : TimelineState :=
  { tracks := [c6Track], nextId := 6 }

/-- The track produced by a successful `splitItem`: the found item is
truncated to `[start, splitFrame)` and a second part with identifier `sid`
and otherwise identical attributes occupying `[splitFrame, oldEnd)` is
appended. -/
def splitResultTrack (t : Track) (item : MediaItem) (iid sid : Nat) (f : Int) : Track :=
  { t with
    items :=
      updateFirstItem iid (fun _ => { item with durationInFrames := f - item.startFrame }) t.items ++
        [{ item with id := sid, startFrame := f, durationInFrames := item.endFrame - f }] }

def c4Track : Track :=
  { id := 0, name := "V", type := TrackKind.video, items := [mkItem 1 10 40],
    isLocked := false, isVisible := true, volume := none }

def c4State : TimelineState :=
  { tracks := [c4Track], nextId := 2 }

def c1NewItem : MediaItem := mkItem 9 10 10

/-- The pending queue is ascending in priority. -/
def prioSorted (l : List EditingDirective) : Prop :=
  l.Pairwise fun a b => a.priority ≤ b.priority

/-- A sequence of `agent.submit_directives` calls. -/
def submitAll (s : EditingSession) (batches : List (List EditingDirective)) :
    EditingSession :=
  batches.foldl (fun t b => t.addDirectives b) s

/-- `m` consecutive `agent.execute_next` calls. -/
def runExecs (s : EditingSession) : Nat → EditingSession
  | 0 => s
  | m + 1 => runExecs (MCPVideoEditingServer.handleExecuteNext s).1 m

def c7Batch : List EditingDirective :=
  [{ id := 1, type := DirectiveKind.add_text, priority := 3, hasAsset := false,
     description := "third" },
   { id := 2, type := DirectiveKind.add_text, priority := 1, hasAsset := false,
     description := "first" },
   { id := 3, type := DirectiveKind.add_text, priority := 2, hasAsset := false,
     description := "second" }]

/-- The directive-related session operations of the MCP surface. -/
inductive SessOp
  | submit (batch : List EditingDirective)
  | execute
  deriving Repr, DecidableEq

def applySessOp (s : EditingSession) : SessOp → EditingSession
  | SessOp.submit b => s.addDirectives b
  | SessOp.execute => (MCPVideoEditingServer.handleExecuteNext s).1

def runSessOps (s : EditingSession) (ops : List SessOp) : EditingSession :=
  ops.foldl applySessOp s

def SessOp.isSubmit : SessOp → Bool
  | SessOp.submit _ => true
  | SessOp.execute => false

/-- The status snapshot derived from the queues; `ever` records whether the
snapshot has ever been recomputed (it starts as the `idle` construction
snapshot). -/
def statusInv (s : EditingSession) (ever : Bool) : Prop :=
  s.editingStatus.currentStep = s.completedDirectives.length ∧
  s.editingStatus.totalSteps =
    s.completedDirectives.length + s.pendingDirectives.length ∧
  s.editingStatus.status =
    (if s.pendingDirectives.length > 0 then SessionStatus.processing
     else if ever then SessionStatus.completed else SessionStatus.idle) ∧
  (ever = false → s.pendingDirectives = [] ∧ s.completedDirectives = [])

def c8Batch : List EditingDirective :=
  [{ id := 1, type := DirectiveKind.add_text, priority := 1, hasAsset := false,
     description := "one" },
   { id := 2, type := DirectiveKind.add_text, priority := 2, hasAsset := false,
     description := "two" },
   { id := 3, type := DirectiveKind.add_text, priority := 3, hasAsset := false,
     description := "three" }]

/-- The occupied-interval ends of one track's items. -/
def trackEnds (t : Track) : List Int :=
  t.items.map fun i => i.startFrame + i.durationInFrames

/-- The occupied-interval ends of every item of every track. -/
def allEnds (tracks : List Track) : List Int :=
  (tracks.map trackEnds).flatten

/-- Fold of `max` with initial value 0, the shape of `updateTotalDuration`. -/
def foldMax (l : List Int) : Int :=
  l.foldl max 0

/-- Spec-side well-formedness of an item (spec section 3: start ≥ 0,
duration ≥ 1). -/
def itemWF (i : MediaItem) : Prop :=
  0 ≤ i.startFrame ∧ 1 ≤ i.durationInFrames

/-- Numeric arguments of a public call stay inside the spec's item data
model (start frames ≥ 0, durations ≥ 1). -/
def TimelineOp.wf : TimelineOp → Prop
  | TimelineOp.addItem _ item f => 1 ≤ item.durationInFrames ∧ 0 ≤ f.getD item.startFrame
  | TimelineOp.moveItem _ _ ns _ => 0 ≤ ns
  | TimelineOp.trimItem _ _ ts _ => ∀ v ∈ ts, 0 ≤ v
  | _ => True

instance (op : TimelineOp) : Decidable op.wf := by
  cases op <;> simp only [TimelineOp.wf] <;> infer_instance

def TimelineOp.isDeleteTrack : TimelineOp → Bool
  | TimelineOp.deleteTrack _ => true
  | _ => false

/-- The state invariant behind the total-duration claim: the cache agrees
with a recomputation, items are well formed, and track identifiers are
unique and below the fresh counter. -/
def timelineInv (s : TimelineState) : Prop :=
  s.totalDuration = computeTotalDuration s.tracks ∧
  (∀ t ∈ s.tracks, ∀ i ∈ t.items, itemWF i) ∧
  s.tracks.Pairwise (fun a b => a.id ≠ b.id) ∧
  (∀ t ∈ s.tracks, t.id < s.nextId)

/-- First part of a split: the found item truncated at the split frame. -/
def splitFirstPart (item : MediaItem) (f : Int) : MediaItem :=
  { item with durationInFrames := f - item.startFrame }

/-- Second part of a split: fresh identifier, starts at the split frame,
keeps the remaining duration. -/
def splitSecondPart (item : MediaItem) (sid : Nat) (f : Int) : MediaItem :=
  { item with
    id := sid
    startFrame := f
    durationInFrames := item.durationInFrames - (f - item.startFrame) }

def c2Ops : List TimelineOp :=
  [TimelineOp.createTrack "V" TrackKind.video,
   TimelineOp.addItem 0 (mkItem 100 0 10) none,
   TimelineOp.splitItem 0 100 4,
   TimelineOp.trimItem 0 100 (some 2) none]

/-! Shared lemmas about the embedded operations. -/

/-- The operation just recorded is on top of the undo stack (eviction only
removes the oldest entry). -/
theorem recordOperation_getLast (s : TimelineState) (op : EditOperation) :
    (s.recordOperation op).undoStack.getLast? = some op := by
  unfold TimelineState.recordOperation
  by_cases h : (s.undoStack ++ [op]).length > 100
  · simp only [h, if_true]
    cases hs : s.undoStack with
    | nil => rw [hs] at h; simp at h
    | cons x xs => simp
  · simp only [h, if_false]
    simp

/-- `executeDirective` never touches the directive queue or the completed
list (all branches are stubs; `executeAddBGM` at most creates a track). -/
theorem executeDirective_queues_eq (s : EditingSession) (d : EditingDirective) :
    (MCPVideoEditingServer.executeDirective s d).pendingDirectives =
        s.pendingDirectives ∧
      (MCPVideoEditingServer.executeDirective s d).completedDirectives =
        s.completedDirectives ∧
      (MCPVideoEditingServer.executeDirective s d).editingStatus =
        s.editingStatus := by
  unfold MCPVideoEditingServer.executeDirective MCPVideoEditingServer.executeAddBGM
  cases d.type <;> simp
  split
  · split <;> simp
  · simp

/-- C3: failing input for the undo/redo round-trip. On a fresh manager,
`createTrack` then a successful `addItemToTrack`, followed by `undo()`:
the undo returns true but leaves the tracks exactly as after the add (the
added item is still there), so the pre-call state is not restored —
`executeReverseOperation` is a logging stub. -/
theorem c3_undo_roundtrip_failing_input :
    (c3Pre.addItemToTrack 0 (mkItem 100 0 10) none).2 = true ∧
    c3Post.undo.2 = true ∧
    c3AfterUndo.tracks = c3Post.tracks ∧
    c3Pre.tracks ≠ c3Post.tracks := by decide

/-- C9: counterexample — after a successful `addItemToTrack` the appended
operation-log entry has kind `move` (the source `EditOperation.type` union
`{cut, trim, move, copy, delete, split}` has no `add` member); the add is
only marked by `parameters.action = "add"`. -/
theorem c9_counterexample :
    c9After.2 = true ∧
    (c9After.1.undoStack.getLast?).map (fun op => op.type) =
      some EditOpKind.move ∧
    (c9After.1.undoStack.getLast?).map (fun op => op.parameters.action) =
      some (some "add") := by decide

/-- C9 (amended): every successful `addItemToTrack` appends to the
operation log an entry whose kind is `move` and whose parameter payload
carries `action = "add"`; the log's kind field ranges over the source union
`{cut, trim, move, copy, delete, split}`. -/
theorem c9_add_logs_move_with_action_add (s : TimelineState) (tid : Nat)
    (item : MediaItem) (f : Option Int)
    (h : (s.addItemToTrack tid item f).2 = true) :
    ((s.addItemToTrack tid item f).1.undoStack.getLast?).map
        (fun op => (op.type, op.parameters.action)) =
      some (EditOpKind.move, some "add") := by
  unfold TimelineState.addItemToTrack at h ⊢
  cases hT : s.getTrack tid with
  | none => rw [hT] at h; simp at h
  | some track =>
    rw [hT] at h
    by_cases hL : track.isLocked
    · simp [hL] at h
    · cases f <;> simp [hL, TimelineState.generateId, recordOperation_getLast]

/-- Witness for C9: the amended theorem applied to a concrete successful
add. -/
theorem c9_witness :
    (((c9WitnessState.addItemToTrack 0 (mkItem 7 0 10) none).1.undoStack.getLast?).map
        (fun op => (op.type, op.parameters.action)) =
      some (EditOpKind.move, some "add")) :=
  c9_add_logs_move_with_action_add c9WitnessState 0 (mkItem 7 0 10) none (by decide)

/-- C10: whenever the pending queue is non-empty, `agent.execute_next`
reports success and appends the popped directive's identifier to the
completed list — `executeDirective` has no failure branch for any of the
six kinds, so the drop-on-failure outcome is unreachable. -/
theorem c10_executeNext_always_succeeds (s : EditingSession)
    (d : EditingDirective) (rest : List EditingDirective)
    (h : s.pendingDirectives = d :: rest) :
    (MCPVideoEditingServer.handleExecuteNext s).2.success = true ∧
    (MCPVideoEditingServer.handleExecuteNext s).1.completedDirectives =
      s.completedDirectives ++ [d.id] ∧
    (MCPVideoEditingServer.handleExecuteNext s).1.pendingDirectives = rest := by
  unfold MCPVideoEditingServer.handleExecuteNext EditingSession.getNextDirective
  rw [h]
  obtain ⟨hp, hc, _⟩ :=
    executeDirective_queues_eq { s with pendingDirectives := rest } d
  refine ⟨rfl, ?_, ?_⟩ <;>
    simp [EditingSession.markDirectiveCompleted, EditingSession.updateEditingStatus,
      hp, hc]

/-- Witness for C10 at a concrete one-directive session. -/
theorem c10_witness :
    (MCPVideoEditingServer.handleExecuteNext c10Sess).2.success = true ∧
    (MCPVideoEditingServer.handleExecuteNext c10Sess).1.completedDirectives =
      c10Sess.completedDirectives ++ [c10Dir.id] ∧
    (MCPVideoEditingServer.handleExecuteNext c10Sess).1.pendingDirectives = [] :=
  c10_executeNext_always_succeeds c10Sess c10Dir [] (by decide)

/-- C5: the overlap resolver is a single positional pass over the
pre-existing items: position by position, an item that is the moved item
itself or whose interval does not properly intersect the new item's
interval is left unchanged; an intersecting item is pushed to start at the
new item's end when the new item starts first, and otherwise has its
duration shrunk to `newStart − otherStart` (floored at 1). -/
theorem c5_resolveOverlaps_pointwise (items : List MediaItem) (n : MediaItem)
    (i : Nat) (item : MediaItem) (hi : items[i]? = some item) :
    (resolveOverlaps items n).length = items.length ∧
    ((item.id = n.id ∨ ¬ ProperIntersect n item) →
      (resolveOverlaps items n)[i]? = some item) ∧
    (item.id ≠ n.id → ProperIntersect n item →
      n.startFrame < item.startFrame →
      (resolveOverlaps items n)[i]? =
        some { item with startFrame := n.endFrame }) ∧
    (item.id ≠ n.id → ProperIntersect n item →
      ¬ n.startFrame < item.startFrame →
      (resolveOverlaps items n)[i]? =
        some { item with durationInFrames := max 1 (n.startFrame - item.startFrame) }) := by
  unfold ProperIntersect MediaItem.endFrame
  refine ⟨by simp [resolveOverlaps], ?_, ?_, ?_⟩
  · intro h
    simp only [resolveOverlaps, List.getElem?_map, hi, Option.map_some']
    split_ifs with h1 h2 h3 <;> try rfl
    all_goals
      rcases h with h | h
      all_goals simp_all
  · intro hid hint hlt
    simp only [resolveOverlaps, List.getElem?_map, hi, Option.map_some']
    split_ifs <;> simp_all
  · intro hid hint hlt
    simp only [resolveOverlaps, List.getElem?_map, hi, Option.map_some']
    split_ifs <;> simp_all

/-- Witness for C5: the new item `[10,20)` pushes the conflicting item
`[15,25)` to start at frame 20. -/
theorem c5_witness :
    (resolveOverlaps [c5Item] c5NewItem).length = 1 ∧
    (resolveOverlaps [c5Item] c5NewItem)[0]? =
      some { c5Item with startFrame := c5NewItem.endFrame } := by
  obtain ⟨hlen, -, hpush, -⟩ :=
    c5_resolveOverlaps_pointwise [c5Item] c5NewItem 0 c5Item (by decide)
  exact ⟨hlen, hpush (by decide) (by decide) (by decide)⟩

/-- C6: counterexample — `edit.set_properties` performs no lock check: on a
locked track holding one item (x = 0), `handleSetProperties` reports
success and the item's x is now 99, so not every item mutation directed at
a locked track fails. -/
theorem c6_counterexample :
    c6State.getTrack 0 = some c6Track ∧ c6Track.isLocked = true ∧
    (MCPVideoEditingServer.handleSetProperties c6State 0 5 { x := some 99 }).isSome = true ∧
    ((MCPVideoEditingServer.handleSetProperties c6State 0 5 { x := some 99 }).map
        fun r => (r.1.getTrack 0).map fun tr => tr.items.map fun i => i.x) =
      some (some [99]) := by decide

/-- C6 (amended): the five `TimelineManager` item mutations (add, move —
both out of and into the track —, trim, split, remove) all fail on a locked
track and leave the state untouched; `edit.set_properties`, however,
ignores the lock: whenever the track and item exist it assigns the
properties and reports success. -/
theorem c6_lock_enforcement (s : TimelineState) (tid : Nat) (t : Track)
    (hT : s.getTrack tid = some t) (hL : t.isLocked = true) :
    (∀ item f, s.addItemToTrack tid item f = (s, false)) ∧
    (∀ iid, s.removeItemFromTrack tid iid = (s, false)) ∧
    (∀ iid ns nt, s.moveItem tid iid ns nt = (s, false)) ∧
    (∀ src iid ns, s.moveItem src iid ns (some tid) = (s, false)) ∧
    (∀ iid a b, s.trimItem tid iid a b = (s, false)) ∧
    (∀ iid f, s.splitItem tid iid f = (s, false)) ∧
    (∀ iid item p, t.items.find? (fun i => i.id == iid) = some item →
      MCPVideoEditingServer.handleSetProperties s tid iid p =
        some
          (s.setTrack
            { t with items := updateFirstItem iid (fun _ => applyPropertyUpdates item p) t.items },
           applyPropertyUpdates item p)) := by
  refine ⟨?_, ?_, ?_, ?_, ?_, ?_, ?_⟩
  · intro item f
    unfold TimelineState.addItemToTrack
    rw [hT]
    simp [hL]
  · intro iid
    unfold TimelineState.removeItemFromTrack
    rw [hT]
    simp [hL]
  · intro iid ns nt
    unfold TimelineState.moveItem
    rw [hT]
    simp [hL]
  · intro src iid ns
    unfold TimelineState.moveItem
    cases hS : s.getTrack src with
    | none => rfl
    | some source =>
      by_cases hSL : source.isLocked
      · simp [hSL]
      · simp only [hSL, Bool.false_eq_true, if_false]
        cases hF : source.items.find? (fun i => i.id == iid) with
        | none => rfl
        | some item =>
          simp only []
          by_cases he : tid = src
          · subst he
            rw [hT] at hS
            cases hS
            exact absurd hL hSL
          · have : ((some tid).getD src == src) = false := by
              simp [Option.getD]
              omega
            rw [this]
            simp only [Bool.false_eq_true, if_false, Option.getD]
            rw [hT]
            simp [hL]
  · intro iid a b
    unfold TimelineState.trimItem
    rw [hT]
    simp [hL]
  · intro iid f
    unfold TimelineState.splitItem
    rw [hT]
    simp [hL]
  · intro iid item p hF
    unfold MCPVideoEditingServer.handleSetProperties
    rw [hT]
    simp only [hF]

/-- Witness for C6: the amended theorem applied to the concrete locked
track of the counterexample. -/
theorem c6_witness :
    c6State.addItemToTrack 0 (mkItem 9 0 5) none = (c6State, false) ∧
    c6State.removeItemFromTrack 0 5 = (c6State, false) ∧
    c6State.moveItem 0 5 20 none = (c6State, false) ∧
    c6State.moveItem 3 5 20 (some 0) = (c6State, false) ∧
    c6State.trimItem 0 5 (some 2) none = (c6State, false) ∧
    c6State.splitItem 0 5 3 = (c6State, false) := by
  obtain ⟨h1, h2, h3, h4, h5, h6, -⟩ :=
    c6_lock_enforcement c6State 0 c6Track (by decide) (by decide)
  exact ⟨h1 (mkItem 9 0 5) none, h2 5, h3 5 20 none, h4 3 5 20, h5 5 (some 2) none, h6 5 3⟩

/-- Replacing the (unique) map entry of the found track makes the lookup
produce the replacement. -/
theorem find?_map_replace (tracks : List Track) (tid : Nat) (t t2 : Track)
    (hT : tracks.find? (fun u => u.id == tid) = some t) (hid : t2.id = t.id) :
    (tracks.map fun u => if u.id == t2.id then t2 else u).find?
        (fun u => u.id == tid) = some t2 := by
  induction tracks with
  | nil => simp at hT
  | cons u us ih =>
    rw [List.map_cons]
    by_cases hu : (u.id == tid) = true
    · simp only [List.find?_cons, hu] at hT
      have hut : u = t := by injection hT
      have h2 : (u.id == t2.id) = true := by
        rw [hid, ← hut]; exact beq_self_eq_true u.id
      have h3 : (t2.id == tid) = true := by
        rw [hid, ← hut]; exact hu
      rw [if_pos h2]
      simp only [List.find?_cons, h3]
    · have hu2 : (u.id == tid) = false := by
        simpa using hu
      simp only [List.find?_cons, hu2] at hT
      have ht : (t.id == tid) = true := by
        have h0 := List.find?_some hT
        simpa using h0
      have hne : (u.id == t2.id) = false := by
        rw [hid]
        have h1 : ¬ u.id = tid := by simpa using hu
        have h2 : t.id = tid := by simpa using ht
        simp [h2, h1]
      rw [if_neg (by simp [hne])]
      simp only [List.find?_cons, hu2]
      exact ih hT

/-- `getTrack` after `setTrack` of a track with the found identifier. -/
theorem getTrack_setTrack_self (s : TimelineState) (tid : Nat) (t t2 : Track)
    (hT : s.getTrack tid = some t) (hid : t2.id = t.id) :
    (s.setTrack t2).getTrack tid = some t2 :=
  find?_map_replace s.tracks tid t t2 hT hid

/-- C4: `splitItem` fails (returning false, state untouched) when the track
is missing or locked, the item is missing, or the split frame is not
strictly inside the item's occupied interval; on success the original item
is truncated to `[start, splitFrame)` and a second part with the fresh
identifier `s.nextId` and otherwise identical attributes occupies
`[splitFrame, oldEnd)`, the two durations summing to the original. -/
theorem c4_splitItem_spec (s : TimelineState) (tid iid : Nat) (f : Int) :
    (s.getTrack tid = none → s.splitItem tid iid f = (s, false)) ∧
    (∀ t, s.getTrack tid = some t → t.isLocked = true →
      s.splitItem tid iid f = (s, false)) ∧
    (∀ t, s.getTrack tid = some t →
      t.items.find? (fun i => i.id == iid) = none →
      s.splitItem tid iid f = (s, false)) ∧
    (∀ t item, s.getTrack tid = some t →
      t.items.find? (fun i => i.id == iid) = some item →
      (f ≤ item.startFrame ∨ item.endFrame ≤ f) →
      s.splitItem tid iid f = (s, false)) ∧
    (∀ t item, s.getTrack tid = some t → t.isLocked = false →
      t.items.find? (fun i => i.id == iid) = some item →
      item.startFrame < f → f < item.endFrame →
      (s.splitItem tid iid f).2 = true ∧
      (s.splitItem tid iid f).1.getTrack tid =
        some (splitResultTrack t item iid s.nextId f) ∧
      (f - item.startFrame) + (item.endFrame - f) = item.durationInFrames ∧
      ((∀ j ∈ t.items, j.id < s.nextId) → ∀ j ∈ t.items, j.id ≠ s.nextId)) := by
  refine ⟨?_, ?_, ?_, ?_, ?_⟩
  · intro hT
    unfold TimelineState.splitItem
    rw [hT]
  · intro t hT hL
    unfold TimelineState.splitItem
    rw [hT]
    simp [hL]
  · intro t hT hF
    unfold TimelineState.splitItem
    rw [hT]
    by_cases hL : t.isLocked <;> simp [hL, hF]
  · intro t item hT hF hout
    have hguard : f - item.startFrame ≤ 0 ∨ f - item.startFrame ≥ item.durationInFrames := by
      unfold MediaItem.endFrame at hout; omega
    unfold TimelineState.splitItem
    rw [hT]
    by_cases hL : t.isLocked
    · simp [hL]
    · dsimp only
      rw [if_neg hL]
      simp only [hF]
      rw [if_pos hguard]
  · intro t item hT hL hF hlt hgt
    have hnl : ¬ t.isLocked = true := by simp [hL]
    have hguard : ¬ (f - item.startFrame ≤ 0 ∨ f - item.startFrame ≥ item.durationInFrames) := by
      unfold MediaItem.endFrame at hgt; omega
    have hdur : item.durationInFrames - (f - item.startFrame) = item.endFrame - f := by
      unfold MediaItem.endFrame; ring
    unfold TimelineState.splitItem
    rw [hT]
    dsimp only
    rw [if_neg hnl]
    simp only [hF]
    rw [if_neg hguard]
    simp only [TimelineState.generateId]
    refine ⟨trivial, ?_, by unfold MediaItem.endFrame; ring,
      fun hb j hj => by have := hb j hj; omega⟩
    unfold splitResultTrack
    rw [← hdur]
    exact getTrack_setTrack_self { s with nextId := s.nextId + 1 } tid t _ hT rfl

/-- Witness for C4: splitting the item occupying `[10,50)` at frame 30
succeeds and produces `[10,30)` and `[30,50)`; splitting at frame 5 fails
and changes nothing. -/
theorem c4_witness :
    (c4State.splitItem 0 1 30).2 = true ∧
    (c4State.splitItem 0 1 30).1.getTrack 0 =
      some (splitResultTrack c4Track (mkItem 1 10 40) 1 2 30) ∧
    c4State.splitItem 0 1 5 = (c4State, false) := by
  obtain ⟨-, -, -, -, h5⟩ := c4_splitItem_spec c4State 0 1 30
  obtain ⟨hsucc, htrack, -, -⟩ :=
    h5 c4Track (mkItem 1 10 40) (by decide) (by decide) (by decide) (by decide)
      (by decide)
  obtain ⟨-, -, -, h4b, -⟩ := c4_splitItem_spec c4State 0 1 5
  exact ⟨hsucc, htrack,
    h4b c4Track (mkItem 1 10 40) (by decide) (by decide) (by decide)⟩

/-- C1: counterexample — three successful `addItemToTrack` calls
(items `[10,20)`, `[20,30)`, then `[0,15)`) leave the track with the first
item displaced to `[15,25)`, properly intersecting the untouched `[20,30)`
item: the single-pass resolver never re-checks displaced items, so the
per-track non-overlap invariant is not preserved. -/
theorem c1_counterexample : ¬ ∀ t ∈ c1Final.tracks, TrackNoOverlap t := by
  decide

/-- C1 (amended): what the single-pass resolver does guarantee: after
`resolveOverlaps` for an inserted or moved item, every other item whose
resulting start frame differs from the new item's start frame is disjoint
from the new item itself; the full per-track invariant is not preserved
(a displaced item may overlap an untouched later item). -/
theorem c1_resolved_items_disjoint_from_new (items : List MediaItem)
    (n : MediaItem) :
    ∀ q ∈ resolveOverlaps items n, q.id ≠ n.id → q.startFrame ≠ n.startFrame →
      ItemsDisjoint q n := by
  intro q hq hid hstart
  unfold resolveOverlaps at hq
  obtain ⟨item, hmem, heq⟩ := List.mem_map.mp hq
  by_cases h1 : (item.id == n.id) = true
  · rw [if_pos h1] at heq
    subst heq
    exact absurd (by simpa using h1) hid
  · rw [if_neg h1] at heq
    by_cases h2 : n.startFrame + n.durationInFrames ≤ item.startFrame ∨
        n.startFrame ≥ item.startFrame + item.durationInFrames
    · rw [if_pos h2] at heq
      subst heq
      unfold ItemsDisjoint MediaItem.endFrame
      omega
    · rw [if_neg h2] at heq
      by_cases h3 : n.startFrame < item.startFrame
      · rw [if_pos h3] at heq
        subst heq
        unfold ItemsDisjoint MediaItem.endFrame
        dsimp only
        omega
      · rw [if_neg h3] at heq
        subst heq
        have hstart2 : item.startFrame ≠ n.startFrame := hstart
        unfold ItemsDisjoint MediaItem.endFrame
        dsimp only
        omega

/-- Witness for C1's amended theorem: the pushed item (now starting at
frame 20) is disjoint from the new item `[10,20)`. -/
theorem c1_witness :
    ItemsDisjoint { mkItem 1 15 10 with startFrame := 20 } c1NewItem :=
  c1_resolved_items_disjoint_from_new [mkItem 1 15 10] c1NewItem
    { mkItem 1 15 10 with startFrame := 20 } (by decide) (by decide) (by decide)

theorem mem_insertDirective {y d : EditingDirective} {l : List EditingDirective} :
    y ∈ insertDirective d l ↔ y = d ∨ y ∈ l := by
  induction l with
  | nil => simp [insertDirective]
  | cons x xs ih =>
    unfold insertDirective
    by_cases hc : x.priority ≤ d.priority
    · rw [if_pos hc]
      simp only [List.mem_cons, ih]
      tauto
    · rw [if_neg hc]
      simp only [List.mem_cons]

theorem prioSorted_insertDirective (d : EditingDirective)
    (l : List EditingDirective) (h : prioSorted l) :
    prioSorted (insertDirective d l) := by
  induction l with
  | nil => simp [insertDirective, prioSorted]
  | cons x xs ih =>
    rcases List.pairwise_cons.mp h with ⟨hx, hxs⟩
    unfold insertDirective
    by_cases hc : x.priority ≤ d.priority
    · rw [if_pos hc]
      refine List.pairwise_cons.mpr ⟨?_, ih hxs⟩
      intro y hy
      rcases mem_insertDirective.mp hy with rfl | hy
      · exact hc
      · exact hx y hy
    · rw [if_neg hc]
      refine List.pairwise_cons.mpr ⟨?_, h⟩
      intro y hy
      rcases List.mem_cons.mp hy with rfl | hy
      · exact le_of_lt (not_le.mp hc)
      · exact le_trans (le_of_lt (not_le.mp hc)) (hx y hy)

theorem prioSorted_sortDirectives (l : List EditingDirective) :
    prioSorted (sortDirectives l) := by
  unfold sortDirectives
  suffices h : ∀ acc, prioSorted acc →
      prioSorted (l.foldl (fun a d => insertDirective d a) acc) by
    exact h [] (by simp [prioSorted])
  induction l with
  | nil => intro acc h; simpa using h
  | cons x xs ih =>
    intro acc h
    exact ih _ (prioSorted_insertDirective x acc h)

theorem filter_insertDirective (d : EditingDirective)
    (l : List EditingDirective) (p : Int) (h : prioSorted l) :
    (insertDirective d l).filter (fun x => x.priority == p) =
      l.filter (fun x => x.priority == p) ++
        (if (d.priority == p) = true then [d] else []) := by
  induction l with
  | nil =>
    unfold insertDirective
    by_cases hdp : (d.priority == p) = true <;> simp [hdp]
  | cons x xs ih =>
    rcases List.pairwise_cons.mp h with ⟨hx, hxs⟩
    unfold insertDirective
    by_cases hc : x.priority ≤ d.priority
    · rw [if_pos hc]
      rw [List.filter_cons, List.filter_cons]
      by_cases hxp : (x.priority == p) = true
      · simp only [hxp, if_true]
        rw [ih hxs]
        simp
      · simp only [hxp, Bool.false_eq_true, if_false]
        exact ih hxs
    · rw [if_neg hc]
      by_cases hdp : (d.priority == p) = true
      · have hnil : (x :: xs).filter (fun y => y.priority == p) = [] := by
          rw [List.filter_eq_nil_iff]
          intro y hy
          have hxy : x.priority ≤ y.priority := by
            rcases List.mem_cons.mp hy with rfl | hy
            · exact le_refl _
            · exact hx y hy
          have hdx : d.priority < x.priority := not_le.mp hc
          have hpd : d.priority = p := by simpa using hdp
          simp only [beq_iff_eq]
          omega
        rw [List.filter_cons, hnil]
        simp [hdp, hnil]
      · rw [List.filter_cons]
        simp only [hdp, Bool.false_eq_true, if_false, List.append_nil]

theorem filter_sortDirectives (l : List EditingDirective) (p : Int) :
    (sortDirectives l).filter (fun x => x.priority == p) =
      l.filter (fun x => x.priority == p) := by
  unfold sortDirectives
  suffices h : ∀ acc, prioSorted acc →
      (l.foldl (fun a d => insertDirective d a) acc).filter
          (fun x => x.priority == p) =
        acc.filter (fun x => x.priority == p) ++
          l.filter (fun x => x.priority == p) by
    simpa using h [] (by simp [prioSorted])
  induction l with
  | nil => intro acc _; simp
  | cons x xs ih =>
    intro acc hacc
    rw [List.foldl_cons]
    rw [ih _ (prioSorted_insertDirective x acc hacc)]
    rw [filter_insertDirective x acc p hacc]
    rw [List.filter_cons]
    by_cases hxp : (x.priority == p) = true <;> simp [hxp]

theorem addDirectives_pending (s : EditingSession) (b : List EditingDirective) :
    (s.addDirectives b).pendingDirectives =
      sortDirectives (s.pendingDirectives ++ b) := rfl

theorem addDirectives_completed (s : EditingSession) (b : List EditingDirective) :
    (s.addDirectives b).completedDirectives = s.completedDirectives := rfl

theorem handleExecuteNext_nil (s : EditingSession)
    (h : s.pendingDirectives = []) :
    (MCPVideoEditingServer.handleExecuteNext s).1 = s := by
  unfold MCPVideoEditingServer.handleExecuteNext EditingSession.getNextDirective
  rw [h]

theorem handleExecuteNext_cons (s : EditingSession) (d : EditingDirective)
    (rest : List EditingDirective) (h : s.pendingDirectives = d :: rest) :
    (MCPVideoEditingServer.handleExecuteNext s).1.completedDirectives =
      s.completedDirectives ++ [d.id] ∧
    (MCPVideoEditingServer.handleExecuteNext s).1.pendingDirectives = rest := by
  unfold MCPVideoEditingServer.handleExecuteNext EditingSession.getNextDirective
  rw [h]
  obtain ⟨hp, hc, -⟩ :=
    executeDirective_queues_eq { s with pendingDirectives := rest } d
  refine ⟨?_, ?_⟩ <;>
    simp [EditingSession.markDirectiveCompleted, EditingSession.updateEditingStatus,
      hp, hc]

theorem submitAll_completed (batches : List (List EditingDirective)) :
    ∀ s : EditingSession,
      (submitAll s batches).completedDirectives = s.completedDirectives := by
  induction batches with
  | nil => intro s; rfl
  | cons b bs ih =>
    intro s
    show (submitAll (s.addDirectives b) bs).completedDirectives = _
    rw [ih, addDirectives_completed]

theorem submitAll_pending (batches : List (List EditingDirective)) :
    ∀ s : EditingSession, prioSorted s.pendingDirectives →
      prioSorted (submitAll s batches).pendingDirectives ∧
      ∀ p : Int,
        (submitAll s batches).pendingDirectives.filter (fun x => x.priority == p) =
          s.pendingDirectives.filter (fun x => x.priority == p) ++
            (batches.flatten).filter (fun x => x.priority == p) := by
  induction batches with
  | nil =>
    intro s hs
    exact ⟨hs, fun p => by simp [submitAll]⟩
  | cons b bs ih =>
    intro s hs
    have hstep : submitAll s (b :: bs) = submitAll (s.addDirectives b) bs := rfl
    obtain ⟨h1, h2⟩ := ih (s.addDirectives b) (by
      rw [addDirectives_pending]
      exact prioSorted_sortDirectives _)
    rw [hstep]
    refine ⟨h1, fun p => ?_⟩
    rw [h2 p, addDirectives_pending, filter_sortDirectives, List.filter_append]
    simp [List.filter_append]

theorem runExecs_spec (m : Nat) : ∀ s : EditingSession,
    (runExecs s m).completedDirectives =
      s.completedDirectives ++ (s.pendingDirectives.take m).map (fun d => d.id) ∧
    (runExecs s m).pendingDirectives = s.pendingDirectives.drop m := by
  induction m with
  | zero => intro s; simp [runExecs]
  | succ k ih =>
    intro s
    cases hq : s.pendingDirectives with
    | nil =>
      have hcur : (MCPVideoEditingServer.handleExecuteNext s).1 = s :=
        handleExecuteNext_nil s hq
      show (runExecs (MCPVideoEditingServer.handleExecuteNext s).1 k).completedDirectives = _ ∧
        (runExecs (MCPVideoEditingServer.handleExecuteNext s).1 k).pendingDirectives = _
      rw [hcur]
      obtain ⟨h1, h2⟩ := ih s
      rw [hq] at h1 h2
      refine ⟨?_, ?_⟩
      · rw [h1]; simp
      · rw [h2]; simp
    | cons d rest =>
      obtain ⟨hc, hp⟩ := handleExecuteNext_cons s d rest hq
      show (runExecs (MCPVideoEditingServer.handleExecuteNext s).1 k).completedDirectives = _ ∧
        (runExecs (MCPVideoEditingServer.handleExecuteNext s).1 k).pendingDirectives = _
      obtain ⟨h1, h2⟩ := ih (MCPVideoEditingServer.handleExecuteNext s).1
      refine ⟨?_, ?_⟩
      · rw [h1, hc, hp]
        simp
      · rw [h2, hp]
        simp

/-- C7: after any sequence of `submitDirectives` calls, the pending queue
is sorted ascending by priority and, for every priority value, lists the
equal-priority directives in submission order (stable sort); repeated
`executeNext` calls then complete exactly the queue prefix in order. In
particular submitting priorities `[3,1,2]` (identifiers 1,2,3) and
executing three times completes them as 2,3,1 — i.e. in priority order
1,2,3. -/
theorem c7_directive_ordering (batches : List (List EditingDirective))
    (m : Nat) :
    prioSorted (submitAll EditingSession.init batches).pendingDirectives ∧
    (∀ p : Int,
      (submitAll EditingSession.init batches).pendingDirectives.filter
          (fun d => d.priority == p) =
        (batches.flatten).filter (fun d => d.priority == p)) ∧
    (runExecs (submitAll EditingSession.init batches) m).completedDirectives =
      ((submitAll EditingSession.init batches).pendingDirectives.take m).map
        (fun d => d.id) ∧
    (runExecs (EditingSession.init.addDirectives c7Batch) 3).completedDirectives =
      [2, 3, 1] := by
  obtain ⟨h1, h2⟩ := submitAll_pending batches EditingSession.init
    (by simp [EditingSession.init, prioSorted])
  obtain ⟨h3, -⟩ := runExecs_spec m (submitAll EditingSession.init batches)
  refine ⟨h1, fun p => ?_, ?_, by decide⟩
  · have := h2 p
    simpa [EditingSession.init] using this
  · rw [h3, submitAll_completed]
    simp [EditingSession.init]

theorem statusInv_updateEditingStatus (s : EditingSession) :
    statusInv s.updateEditingStatus true := by
  unfold statusInv EditingSession.updateEditingStatus
  refine ⟨rfl, rfl, ?_, by simp⟩
  simp

theorem handleExecuteNext_cons_shape (s : EditingSession) (d : EditingDirective)
    (rest : List EditingDirective) (h : s.pendingDirectives = d :: rest) :
    ∃ s0 : EditingSession,
      (MCPVideoEditingServer.handleExecuteNext s).1 = s0.updateEditingStatus := by
  unfold MCPVideoEditingServer.handleExecuteNext EditingSession.getNextDirective
  rw [h]
  exact ⟨_, rfl⟩

theorem statusInv_step (s : EditingSession) (ever : Bool) (op : SessOp)
    (h : statusInv s ever) :
    statusInv (applySessOp s op) (ever || op.isSubmit) := by
  cases op with
  | submit b =>
    have : (ever || SessOp.isSubmit (SessOp.submit b)) = true := by
      simp [SessOp.isSubmit]
    rw [this]
    exact statusInv_updateEditingStatus _
  | execute =>
    have hb : (ever || SessOp.isSubmit SessOp.execute) = ever := by
      simp [SessOp.isSubmit]
    rw [hb]
    cases hq : s.pendingDirectives with
    | nil =>
      show statusInv (MCPVideoEditingServer.handleExecuteNext s).1 ever
      rw [handleExecuteNext_nil s hq]
      exact h
    | cons d rest =>
      have hever : ever = true := by
        cases hevr : ever
        · exact absurd hq (by simp [(h.2.2.2 hevr).1])
        · rfl
      obtain ⟨s0, hs0⟩ := handleExecuteNext_cons_shape s d rest hq
      show statusInv (MCPVideoEditingServer.handleExecuteNext s).1 ever
      rw [hs0, hever]
      exact statusInv_updateEditingStatus _

theorem statusInv_run (ops : List SessOp) : ∀ (s : EditingSession) (ever : Bool),
    statusInv s ever →
    statusInv (runSessOps s ops) (ever || ops.any SessOp.isSubmit) := by
  induction ops with
  | nil =>
    intro s ever h
    simpa [runSessOps] using h
  | cons op rest ih =>
    intro s ever h
    have h2 := ih (applySessOp s op) (ever || op.isSubmit) (statusInv_step s ever op h)
    have hb : (ever || (op :: rest).any SessOp.isSubmit) =
        ((ever || op.isSubmit) || rest.any SessOp.isSubmit) := by
      simp [List.any_cons, Bool.or_assoc]
    rw [hb]
    exact h2

theorem statusInv_init : statusInv EditingSession.init false := by
  refine ⟨rfl, rfl, rfl, fun _ => ⟨rfl, rfl⟩⟩

/-- C8: after any sequence of submit/execute operations the stored status
snapshot reports `currentStep` = number of completed directives,
`totalSteps` = completed + pending, `processing` exactly when the pending
queue is non-empty, `idle` exactly when no submit was ever made, and
`completed` exactly when the queue is empty after some submission; in
particular after submitting 3 directives and executing 1 it reports
`(1, 3, processing)`, and after executing all 3 it reports `completed`. -/
theorem c8_status_accounting (ops : List SessOp) :
    (runSessOps EditingSession.init ops).editingStatus.currentStep =
      (runSessOps EditingSession.init ops).completedDirectives.length ∧
    (runSessOps EditingSession.init ops).editingStatus.totalSteps =
      (runSessOps EditingSession.init ops).completedDirectives.length +
        (runSessOps EditingSession.init ops).pendingDirectives.length ∧
    ((runSessOps EditingSession.init ops).editingStatus.status =
        SessionStatus.processing ↔
      (runSessOps EditingSession.init ops).pendingDirectives ≠ []) ∧
    ((runSessOps EditingSession.init ops).editingStatus.status =
        SessionStatus.idle ↔ ops.any SessOp.isSubmit = false) ∧
    ((runSessOps EditingSession.init ops).editingStatus.status =
        SessionStatus.completed ↔
      ((runSessOps EditingSession.init ops).pendingDirectives = [] ∧
        ops.any SessOp.isSubmit = true)) ∧
    (runSessOps EditingSession.init
        [SessOp.submit c8Batch, SessOp.execute]).editingStatus.currentStep = 1 ∧
    (runSessOps EditingSession.init
        [SessOp.submit c8Batch, SessOp.execute]).editingStatus.totalSteps = 3 ∧
    (runSessOps EditingSession.init
        [SessOp.submit c8Batch, SessOp.execute]).editingStatus.status =
      SessionStatus.processing ∧
    (runSessOps EditingSession.init
        [SessOp.submit c8Batch, SessOp.execute, SessOp.execute,
          SessOp.execute]).editingStatus.status = SessionStatus.completed := by
  obtain ⟨h1, h2, h3, h4⟩ := by
    have h0 := statusInv_run ops EditingSession.init false statusInv_init
    rwa [Bool.false_or] at h0
  refine ⟨h1, h2, ?_, ?_, ?_, by decide, by decide, by decide, by decide⟩
  · cases hq : (runSessOps EditingSession.init ops).pendingDirectives with
    | nil =>
      rw [h3, hq]
      cases hE : ops.any SessOp.isSubmit <;> simp [hE]
    | cons d rest =>
      rw [h3, hq]
      simp
  · rw [h3]
    cases hE : ops.any SessOp.isSubmit with
    | true =>
      cases hq : (runSessOps EditingSession.init ops).pendingDirectives with
      | nil => simp
      | cons d rest => simp
    | false =>
      obtain ⟨hp, -⟩ := h4 hE
      rw [hp]
      simp
  · rw [h3]
    cases hE : ops.any SessOp.isSubmit with
    | true =>
      cases hq : (runSessOps EditingSession.init ops).pendingDirectives with
      | nil => simp
      | cons d rest => simp
    | false =>
      obtain ⟨hp, -⟩ := h4 hE
      rw [hp]
      simp

theorem foldl_max_init (l : List Int) : ∀ a : Int, a ≤ l.foldl max a := by
  induction l with
  | nil => intro a; simp
  | cons x xs ih =>
    intro a
    rw [List.foldl_cons]
    exact le_trans (le_max_left a x) (ih (max a x))

theorem foldl_max_mem_le (l : List Int) : ∀ (a x : Int), x ∈ l → x ≤ l.foldl max a := by
  induction l with
  | nil => intro a x hx; simp at hx
  | cons y ys ih =>
    intro a x hx
    rw [List.foldl_cons]
    rcases List.mem_cons.mp hx with rfl | hx
    · exact le_trans (le_max_right a x) (foldl_max_init ys (max a x))
    · exact ih (max a y) x hx

theorem foldl_max_cases (l : List Int) : ∀ a : Int, l.foldl max a = a ∨ l.foldl max a ∈ l := by
  induction l with
  | nil => intro a; left; rfl
  | cons x xs ih =>
    intro a
    rw [List.foldl_cons]
    rcases ih (max a x) with h | h
    · rcases max_choice a x with hm | hm
      · left; rw [h, hm]
      · right; rw [h, hm]; exact List.mem_cons_self x xs
    · right; exact List.mem_cons_of_mem x h

theorem foldMax_le_of (l1 l2 : List Int) (h : ∀ x ∈ l1, x ≤ foldMax l2) :
    foldMax l1 ≤ foldMax l2 := by
  unfold foldMax
  rcases foldl_max_cases l1 0 with h0 | h0
  · rw [h0]; exact foldl_max_init l2 0
  · exact h _ h0

theorem foldMax_eq_of (l1 l2 : List Int) (h12 : ∀ x ∈ l1, x ≤ foldMax l2)
    (h21 : ∀ x ∈ l2, x ≤ foldMax l1) : foldMax l1 = foldMax l2 :=
  le_antisymm (foldMax_le_of l1 l2 h12) (foldMax_le_of l2 l1 h21)

theorem computeTotalDuration_eq_foldMax (tracks : List Track) :
    computeTotalDuration tracks = foldMax (allEnds tracks) := by
  unfold computeTotalDuration foldMax
  suffices h : ∀ (ts : List Track) (acc : Int),
      ts.foldl (fun acc t =>
        t.items.foldl (fun m i => max m (i.startFrame + i.durationInFrames)) acc) acc =
        (allEnds ts).foldl max acc by
    exact h tracks 0
  intro ts
  induction ts with
  | nil => intro acc; simp [allEnds]
  | cons t rest ih =>
    intro acc
    rw [List.foldl_cons]
    have hin : t.items.foldl (fun m i => max m (i.startFrame + i.durationInFrames)) acc =
        (trackEnds t).foldl max acc := by
      unfold trackEnds
      rw [List.foldl_map]
    have hall : allEnds (t :: rest) = trackEnds t ++ allEnds rest := by
      simp [allEnds]
    rw [hin, ih, hall, List.foldl_append]

theorem mem_allEnds_of (tracks : List Track) (t : Track) (x : Int)
    (ht : t ∈ tracks) (hx : x ∈ trackEnds t) : x ∈ allEnds tracks := by
  unfold allEnds
  rw [List.mem_flatten]
  exact ⟨trackEnds t, List.mem_map_of_mem trackEnds ht, hx⟩

theorem exists_of_mem_allEnds (tracks : List Track) (x : Int)
    (hx : x ∈ allEnds tracks) : ∃ t ∈ tracks, x ∈ trackEnds t := by
  unfold allEnds at hx
  rw [List.mem_flatten] at hx
  obtain ⟨l, hl, hxl⟩ := hx
  obtain ⟨t, ht, rfl⟩ := List.mem_map.mp hl
  exact ⟨t, ht, hxl⟩

theorem eq_of_mem_same_id (tracks : List Track)
    (hpw : tracks.Pairwise fun a b => a.id ≠ b.id) :
    ∀ t ∈ tracks, ∀ u ∈ tracks, u.id = t.id → u = t := by
  induction tracks with
  | nil => intro t ht; simp at ht
  | cons v vs ih =>
    rcases List.pairwise_cons.mp hpw with ⟨hv, hvs⟩
    intro t ht u hu hid
    rcases List.mem_cons.mp ht with h1 | h1
    · rcases List.mem_cons.mp hu with h2 | h2
      · rw [h1, h2]
      · rw [h1] at hid
        exact absurd hid.symm (hv u h2)
    · rcases List.mem_cons.mp hu with h2 | h2
      · rw [h2] at hid
        exact absurd hid (hv t h1)
      · exact ih hvs t h1 u h2 hid

theorem getTrack_mem (s : TimelineState) (tid : Nat) (t : Track)
    (h : s.getTrack tid = some t) : t ∈ s.tracks ∧ t.id = tid := by
  unfold TimelineState.getTrack at h
  refine ⟨List.mem_of_find?_eq_some h, ?_⟩
  have := List.find?_some h
  simpa using this

theorem mem_updateFirstItem (iid : Nat) (f : MediaItem → MediaItem) :
    ∀ (l : List MediaItem) (x : MediaItem), x ∈ updateFirstItem iid f l →
      x ∈ l ∨ ∃ y ∈ l, x = f y := by
  intro l
  induction l with
  | nil => intro x hx; simp [updateFirstItem] at hx
  | cons i rest ih =>
    intro x hx
    unfold updateFirstItem at hx
    by_cases hc : (i.id == iid) = true
    · rw [if_pos hc] at hx
      rcases List.mem_cons.mp hx with rfl | hx
      · exact Or.inr ⟨i, List.mem_cons_self i rest, rfl⟩
      · exact Or.inl (List.mem_cons_of_mem i hx)
    · rw [if_neg hc] at hx
      rcases List.mem_cons.mp hx with rfl | hx
      · exact Or.inl (List.mem_cons_self x rest)
      · rcases ih x hx with h | ⟨y, hy, rfl⟩
        · exact Or.inl (List.mem_cons_of_mem i h)
        · exact Or.inr ⟨y, List.mem_cons_of_mem i hy, rfl⟩

theorem updateFirstItem_covers (iid : Nat) (f : MediaItem → MediaItem) :
    ∀ (l : List MediaItem) (x : MediaItem), x ∈ l →
      x ∈ updateFirstItem iid f l ∨ l.find? (fun i => i.id == iid) = some x := by
  intro l
  induction l with
  | nil => intro x hx; simp at hx
  | cons i rest ih =>
    intro x hx
    unfold updateFirstItem
    by_cases hc : (i.id == iid) = true
    · rcases List.mem_cons.mp hx with rfl | hx
      · right
        simp only [List.find?_cons, hc]
      · left
        rw [if_pos hc]
        exact List.mem_cons_of_mem _ hx
    · rcases List.mem_cons.mp hx with rfl | hx
      · left
        rw [if_neg hc]
        exact List.mem_cons_self _ _
      · rcases ih x hx with h | h
        · left
          rw [if_neg hc]
          exact List.mem_cons_of_mem i h
        · right
          have hc2 : (i.id == iid) = false := by simpa using hc
          simp only [List.find?_cons, hc2]
          exact h

theorem resolveOverlaps_wf (items : List MediaItem) (n : MediaItem)
    (hitems : ∀ i ∈ items, itemWF i) :
    ∀ q ∈ resolveOverlaps items n, itemWF q := by
  intro q hq
  unfold resolveOverlaps at hq
  obtain ⟨item, hmem, heq⟩ := List.mem_map.mp hq
  have hw := hitems item hmem
  by_cases h1 : (item.id == n.id) = true
  · rw [if_pos h1] at heq; subst heq; exact hw
  · rw [if_neg h1] at heq
    by_cases h2 : n.startFrame + n.durationInFrames ≤ item.startFrame ∨
        n.startFrame ≥ item.startFrame + item.durationInFrames
    · rw [if_pos h2] at heq; subst heq; exact hw
    · rw [if_neg h2] at heq
      by_cases h3 : n.startFrame < item.startFrame
      · rw [if_pos h3] at heq
        subst heq
        unfold itemWF at hw ⊢
        dsimp only
        omega
      · rw [if_neg h3] at heq
        subst heq
        unfold itemWF at hw ⊢
        dsimp only
        omega

theorem setTrack_pairwise (s : TimelineState) (mod : Track)
    (h : s.tracks.Pairwise fun a b => a.id ≠ b.id) :
    (s.setTrack mod).tracks.Pairwise fun a b => a.id ≠ b.id := by
  unfold TimelineState.setTrack
  dsimp only
  rw [List.pairwise_map]
  refine h.imp ?_
  intro a b hab
  by_cases ha : (a.id == mod.id) = true <;> by_cases hb : (b.id == mod.id) = true <;>
    simp only [ha, hb, if_pos, if_neg, Bool.false_eq_true, if_false]
  · exact absurd (by
      have h1 : a.id = mod.id := by simpa using ha
      have h2 : b.id = mod.id := by simpa using hb
      omega) hab
  · have h1 : a.id = mod.id := by simpa using ha
    have h2 : ¬ b.id = mod.id := by simpa using hb
    omega
  · have h1 : ¬ a.id = mod.id := by simpa using ha
    have h2 : b.id = mod.id := by simpa using hb
    omega
  · exact hab

theorem setTrack_parts (s : TimelineState) (mod : Track)
    (h2 : ∀ t ∈ s.tracks, ∀ i ∈ t.items, itemWF i)
    (h3 : s.tracks.Pairwise fun a b => a.id ≠ b.id)
    (h4 : ∀ t ∈ s.tracks, t.id < s.nextId)
    (hwfmod : ∀ i ∈ mod.items, itemWF i) :
    (∀ t ∈ (s.setTrack mod).tracks, ∀ i ∈ t.items, itemWF i) ∧
    ((s.setTrack mod).tracks.Pairwise fun a b => a.id ≠ b.id) ∧
    (∀ t ∈ (s.setTrack mod).tracks, t.id < s.nextId) := by
  refine ⟨?_, setTrack_pairwise s mod h3, ?_⟩
  · intro t ht
    obtain ⟨u, hu, rfl⟩ := List.mem_map.mp ht
    by_cases hc : (u.id == mod.id) = true
    · rw [if_pos hc]; exact hwfmod
    · rw [if_neg hc]; exact h2 u hu
  · intro t ht
    obtain ⟨u, hu, rfl⟩ := List.mem_map.mp ht
    by_cases hc : (u.id == mod.id) = true
    · rw [if_pos hc]
      have h1 : u.id = mod.id := by simpa using hc
      rw [← h1]
      exact h4 u hu
    · rw [if_neg hc]; exact h4 u hu

theorem mem_le_foldMax (l : List Int) (x : Int) (h : x ∈ l) : x ≤ foldMax l :=
  foldl_max_mem_le l 0 x h

theorem allEnds_append (a b : List Track) :
    allEnds (a ++ b) = allEnds a ++ allEnds b := by
  simp [allEnds]

theorem updateFirstItem_wf (iid : Nat) (v : MediaItem) (l : List MediaItem)
    (hl : ∀ i ∈ l, itemWF i) (hv : itemWF v) :
    ∀ i ∈ updateFirstItem iid (fun _ => v) l, itemWF i := by
  intro i hi
  rcases mem_updateFirstItem iid (fun _ => v) l i hi with h | ⟨y, _, rfl⟩
  · exact hl i h
  · exact hv

/-- Invariant components survive the common tail of the mutating calls:
recompute the total, draw an operation identifier, record the operation. -/
theorem timelineInv_tail (s0 : TimelineState) (op : EditOperation)
    (h2 : ∀ t ∈ s0.tracks, ∀ i ∈ t.items, itemWF i)
    (h3 : s0.tracks.Pairwise fun a b => a.id ≠ b.id)
    (h4 : ∀ t ∈ s0.tracks, t.id < s0.nextId) :
    timelineInv ((s0.updateTotalDuration.generateId.2).recordOperation op) := by
  refine ⟨rfl, h2, h3, fun t ht => Nat.lt_succ_of_lt (h4 t ht)⟩

/-- Replacing one track by a modification whose item ends are mutually
dominated leaves the recomputed total duration unchanged. -/
theorem computeTotal_setTrack_eq (tracks : List Track) (track modT : Track)
    (hpw : tracks.Pairwise fun a b => a.id ≠ b.id)
    (htm : track ∈ tracks) (hid : modT.id = track.id)
    (hdom1 : ∀ x ∈ trackEnds modT, ∃ y ∈ track.items,
      x ≤ y.startFrame + y.durationInFrames)
    (hdom2 : ∀ x ∈ trackEnds track, ∃ y ∈ modT.items,
      x ≤ y.startFrame + y.durationInFrames) :
    computeTotalDuration (tracks.map fun u => if u.id == modT.id then modT else u) =
      computeTotalDuration tracks := by
  rw [computeTotalDuration_eq_foldMax, computeTotalDuration_eq_foldMax]
  apply foldMax_eq_of
  · intro x hx
    obtain ⟨t2, ht2, hxe⟩ := exists_of_mem_allEnds _ x hx
    obtain ⟨u, hu, rfl⟩ := List.mem_map.mp ht2
    by_cases hc : (u.id == modT.id) = true
    · rw [if_pos hc] at hxe
      obtain ⟨y, hy, hxy⟩ := hdom1 x hxe
      refine le_trans hxy (mem_le_foldMax _ _ ?_)
      refine mem_allEnds_of tracks track _ htm ?_
      unfold trackEnds
      exact List.mem_map_of_mem _ hy
    · rw [if_neg hc] at hxe
      exact mem_le_foldMax _ _ (mem_allEnds_of tracks u x hu hxe)
  · intro x hx
    obtain ⟨u, hu, hxe⟩ := exists_of_mem_allEnds _ x hx
    by_cases hc : (u.id == modT.id) = true
    · have hu2 : u = track := by
        apply eq_of_mem_same_id tracks hpw track htm u hu
        have h0 : u.id = modT.id := by simpa using hc
        rw [h0, hid]
      rw [hu2] at hxe
      obtain ⟨y, hy, hxy⟩ := hdom2 x hxe
      refine le_trans hxy (mem_le_foldMax _ _ ?_)
      refine mem_allEnds_of _ modT _ ?_ ?_
      · have hmem := List.mem_map_of_mem
          (fun u => if u.id == modT.id then modT else u) htm
        dsimp only at hmem
        rw [if_pos (by simp [hid] : (track.id == modT.id) = true)] at hmem
        exact hmem
      · unfold trackEnds
        exact List.mem_map_of_mem _ hy
    · refine mem_le_foldMax _ _ ?_
      have hmem := List.mem_map_of_mem
        (fun u => if u.id == modT.id then modT else u) hu
      dsimp only at hmem
      rw [if_neg hc] at hmem
      exact mem_allEnds_of _ u x hmem hxe

/-- Splitting an item replaces its end by the split frame but re-introduces
the old end on the second part: every end of the modified track is
dominated by an old end and conversely. -/
theorem split_trackEnds_dom (track : Track) (item : MediaItem)
    (iid sid : Nat) (f : Int) (modT : Track)
    (hmod : modT.items =
      updateFirstItem iid (fun _ => splitFirstPart item f) track.items ++
        [splitSecondPart item sid f])
    (hF : track.items.find? (fun i => i.id == iid) = some item)
    (hgt : f - item.startFrame < item.durationInFrames) :
    (∀ x ∈ trackEnds modT, ∃ y ∈ track.items,
      x ≤ y.startFrame + y.durationInFrames) ∧
    (∀ x ∈ trackEnds track, ∃ y ∈ modT.items,
      x ≤ y.startFrame + y.durationInFrames) := by
  have hitem : item ∈ track.items := List.mem_of_find?_eq_some hF
  constructor
  · intro x hx
    unfold trackEnds at hx
    rw [hmod, List.map_append] at hx
    rcases List.mem_append.mp hx with hx | hx
    · obtain ⟨y0, hy0, rfl⟩ := List.mem_map.mp hx
      rcases mem_updateFirstItem _ _ _ _ hy0 with h | ⟨z, _, rfl⟩
      · exact ⟨y0, h, le_refl _⟩
      · refine ⟨item, hitem, ?_⟩
        unfold splitFirstPart
        dsimp only
        omega
    · rw [List.mem_singleton.mp hx]
      refine ⟨item, hitem, ?_⟩
      unfold splitSecondPart
      dsimp only
      omega
  · intro x hx
    unfold trackEnds at hx
    obtain ⟨y, hy, rfl⟩ := List.mem_map.mp hx
    rcases updateFirstItem_covers iid
        (fun _ => { item with durationInFrames := f - item.startFrame })
        track.items y hy with h | h
    · refine ⟨y, ?_, le_refl _⟩
      rw [hmod]
      exact List.mem_append_left _ h
    · have hyi : y = item := by
        rw [hF] at h
        injection h.symm
      refine ⟨splitSecondPart item sid f, ?_, ?_⟩
      · rw [hmod]
        exact List.mem_append_right _ (List.mem_singleton.mpr rfl)
      · rw [hyi]
        unfold splitSecondPart
        dsimp only
        omega

theorem computeTotal_append_emptyTrack (ts : List Track) (t0 : Track)
    (h : t0.items = []) :
    computeTotalDuration (ts ++ [t0]) = computeTotalDuration ts := by
  rw [computeTotalDuration_eq_foldMax, computeTotalDuration_eq_foldMax,
    allEnds_append]
  have h2 : allEnds [t0] = [] := by simp [allEnds, trackEnds, h]
  rw [h2, List.append_nil]

theorem timelineInv_createTrack (s : TimelineState) (n : String)
    (k : TrackKind) (h : timelineInv s) :
    timelineInv (s.createTrack n k).2 := by
  obtain ⟨h1, h2, h3, h4⟩ := h
  unfold TimelineState.createTrack TimelineState.generateId
  dsimp only
  refine ⟨?_, ?_, ?_, ?_⟩
  · exact h1.trans (computeTotal_append_emptyTrack s.tracks _ rfl).symm
  · intro t ht
    rcases List.mem_append.mp ht with ht | ht
    · exact h2 t ht
    · rw [List.mem_singleton.mp ht]
      intro i hi
      simp at hi
  · refine List.pairwise_append.mpr ⟨h3, List.pairwise_singleton _ _, ?_⟩
    intro a ha b hb
    rw [List.mem_singleton.mp hb]
    exact Nat.ne_of_lt (h4 a ha)
  · intro t ht
    rcases List.mem_append.mp ht with ht | ht
    · exact Nat.lt_succ_of_lt (h4 t ht)
    · rw [List.mem_singleton.mp ht]
      exact Nat.lt_succ_self s.nextId

theorem timelineInv_addItem (s : TimelineState) (tid : Nat) (it : MediaItem)
    (f : Option Int) (h : timelineInv s)
    (hwf : 1 ≤ it.durationInFrames ∧ 0 ≤ f.getD it.startFrame) :
    timelineInv (s.addItemToTrack tid it f).1 := by
  obtain ⟨h1, h2, h3, h4⟩ := h
  unfold TimelineState.addItemToTrack
  cases hT : s.getTrack tid with
  | none => exact ⟨h1, h2, h3, h4⟩
  | some track =>
    have hm := getTrack_mem s tid track hT
    by_cases hL : track.isLocked
    · simp only [hL, if_true]
      exact ⟨h1, h2, h3, h4⟩
    · dsimp only
      rw [if_neg hL]
      cases f with
      | none =>
        dsimp only
        have hmod : ∀ i ∈ resolveOverlaps track.items it ++ [it], itemWF i := by
          intro i hi
          rcases List.mem_append.mp hi with hi | hi
          · exact resolveOverlaps_wf track.items it (h2 track hm.1) i hi
          · rw [List.mem_singleton.mp hi]
            exact ⟨hwf.2, hwf.1⟩
        obtain ⟨p2, p3, p4⟩ := setTrack_parts s
          { track with items := resolveOverlaps track.items it ++ [it] }
          h2 h3 h4 hmod
        exact timelineInv_tail _ _ p2 p3 p4
      | some v =>
        dsimp only
        have hmod : ∀ i ∈ resolveOverlaps track.items { it with startFrame := v } ++
            [{ it with startFrame := v }], itemWF i := by
          intro i hi
          rcases List.mem_append.mp hi with hi | hi
          · exact resolveOverlaps_wf track.items _ (h2 track hm.1) i hi
          · rw [List.mem_singleton.mp hi]
            exact ⟨hwf.2, hwf.1⟩
        obtain ⟨p2, p3, p4⟩ := setTrack_parts s
          { track with items := resolveOverlaps track.items { it with startFrame := v } ++
              [{ it with startFrame := v }] }
          h2 h3 h4 hmod
        exact timelineInv_tail _ _ p2 p3 p4

theorem timelineInv_removeItem (s : TimelineState) (tid iid : Nat)
    (h : timelineInv s) : timelineInv (s.removeItemFromTrack tid iid).1 := by
  obtain ⟨h1, h2, h3, h4⟩ := h
  unfold TimelineState.removeItemFromTrack
  cases hT : s.getTrack tid with
  | none => exact ⟨h1, h2, h3, h4⟩
  | some track =>
    have hm := getTrack_mem s tid track hT
    by_cases hL : track.isLocked
    · simp only [hL, if_true]
      exact ⟨h1, h2, h3, h4⟩
    · dsimp only
      rw [if_neg hL]
      cases hF : track.items.find? (fun i => i.id == iid) with
      | none => exact ⟨h1, h2, h3, h4⟩
      | some removed =>
        dsimp only
        have hmod : ∀ i ∈ track.items.eraseP (fun i => i.id == iid), itemWF i :=
          fun i hi => h2 track hm.1 i (List.mem_of_mem_eraseP hi)
        obtain ⟨p2, p3, p4⟩ := setTrack_parts s
          { track with items := track.items.eraseP (fun i => i.id == iid) }
          h2 h3 h4 hmod
        exact timelineInv_tail _ _ p2 p3 p4

theorem timelineInv_undo (s : TimelineState) (h : timelineInv s) :
    timelineInv s.undo.1 := by
  obtain ⟨h1, h2, h3, h4⟩ := h
  unfold TimelineState.undo
  cases s.undoStack.getLast? with
  | none => exact ⟨h1, h2, h3, h4⟩
  | some op => exact ⟨h1, h2, h3, h4⟩

theorem timelineInv_redo (s : TimelineState) (h : timelineInv s) :
    timelineInv s.redo.1 := by
  obtain ⟨h1, h2, h3, h4⟩ := h
  unfold TimelineState.redo
  cases s.redoStack.getLast? with
  | none => exact ⟨h1, h2, h3, h4⟩
  | some op => exact ⟨h1, h2, h3, h4⟩

theorem timelineInv_trimItem (s : TimelineState) (tid iid : Nat)
    (a b : Option Int) (h : timelineInv s) (hwf : ∀ v ∈ a, 0 ≤ v) :
    timelineInv (s.trimItem tid iid a b).1 := by
  obtain ⟨h1, h2, h3, h4⟩ := h
  unfold TimelineState.trimItem
  cases hT : s.getTrack tid with
  | none => exact ⟨h1, h2, h3, h4⟩
  | some track =>
    have hm := getTrack_mem s tid track hT
    by_cases hL : track.isLocked
    · simp only [hL, if_true]
      exact ⟨h1, h2, h3, h4⟩
    · dsimp only
      rw [if_neg hL]
      cases hF : track.items.find? (fun i => i.id == iid) with
      | none => exact ⟨h1, h2, h3, h4⟩
      | some item =>
        have hit : itemWF item := h2 track hm.1 item (List.mem_of_find?_eq_some hF)
        cases a with
        | none =>
          cases b with
          | none =>
            dsimp only
            obtain ⟨p2, p3, p4⟩ := setTrack_parts s
              { track with items := updateFirstItem iid (fun _ => item) track.items }
              h2 h3 h4 (updateFirstItem_wf _ _ _ (h2 track hm.1) hit)
            exact timelineInv_tail _ _ p2 p3 p4
          | some te =>
            dsimp only
            obtain ⟨p2, p3, p4⟩ := setTrack_parts s
              { track with items := updateFirstItem iid (fun _ => { item with durationInFrames := max 1 (te - item.startFrame) }) track.items }
              h2 h3 h4 (updateFirstItem_wf _ _ _ (h2 track hm.1)
                ⟨hit.1, le_max_left 1 _⟩)
            exact timelineInv_tail _ _ p2 p3 p4
        | some ts =>
          have hts : (0 : Int) ≤ ts := hwf ts rfl
          cases b with
          | none =>
            dsimp only
            obtain ⟨p2, p3, p4⟩ := setTrack_parts s
              { track with items := updateFirstItem iid (fun _ => { item with startFrame := ts, durationInFrames := max 1 (item.durationInFrames - (ts - item.startFrame)) }) track.items }
              h2 h3 h4 (updateFirstItem_wf _ _ _ (h2 track hm.1)
                ⟨hts, le_max_left 1 _⟩)
            exact timelineInv_tail _ _ p2 p3 p4
          | some te =>
            dsimp only
            obtain ⟨p2, p3, p4⟩ := setTrack_parts s
              { track with items := updateFirstItem iid (fun _ => { item with startFrame := ts, durationInFrames := max 1 (te - ts) }) track.items }
              h2 h3 h4 (updateFirstItem_wf _ _ _ (h2 track hm.1)
                ⟨hts, le_max_left 1 _⟩)
            exact timelineInv_tail _ _ p2 p3 p4

theorem timelineInv_moveItem (s : TimelineState) (tid iid : Nat) (ns : Int)
    (nt : Option Nat) (h : timelineInv s) (hwf : 0 ≤ ns) :
    timelineInv (s.moveItem tid iid ns nt).1 := by
  obtain ⟨h1, h2, h3, h4⟩ := h
  unfold TimelineState.moveItem TimelineState.finishMove
  cases hT : s.getTrack tid with
  | none => exact ⟨h1, h2, h3, h4⟩
  | some source =>
    have hm := getTrack_mem s tid source hT
    by_cases hL : source.isLocked
    · simp only [hL, if_true]
      exact ⟨h1, h2, h3, h4⟩
    · dsimp only
      rw [if_neg hL]
      cases hF : source.items.find? (fun i => i.id == iid) with
      | none => exact ⟨h1, h2, h3, h4⟩
      | some item =>
        have hit : itemWF item := h2 source hm.1 item (List.mem_of_find?_eq_some hF)
        have hmoved : itemWF { item with startFrame := ns } := ⟨hwf, hit.2⟩
        dsimp only
        by_cases he : (nt.getD tid == tid) = true
        · rw [if_pos he]
          have hmod : ∀ i ∈ resolveOverlaps
              (updateFirstItem iid (fun _ => { item with startFrame := ns }) source.items)
              { item with startFrame := ns }, itemWF i :=
            resolveOverlaps_wf _ _ (updateFirstItem_wf _ _ _ (h2 source hm.1) hmoved)
          obtain ⟨p2, p3, p4⟩ := setTrack_parts s
            { source with items := resolveOverlaps (updateFirstItem iid (fun _ => { item with startFrame := ns }) source.items) { item with startFrame := ns } }
            h2 h3 h4 hmod
          exact timelineInv_tail _ _ p2 p3 p4
        · rw [if_neg he]
          cases hT2 : s.getTrack (nt.getD tid) with
          | none => exact ⟨h1, h2, h3, h4⟩
          | some target =>
            have hm2 := getTrack_mem s (nt.getD tid) target hT2
            by_cases hL2 : target.isLocked
            · simp only [hL2, if_true]
              exact ⟨h1, h2, h3, h4⟩
            · dsimp only
              rw [if_neg hL2]
              have hmod1 : ∀ i ∈ source.items.eraseP (fun i => i.id == iid), itemWF i :=
                fun i hi => h2 source hm.1 i (List.mem_of_mem_eraseP hi)
              obtain ⟨p2, p3, p4⟩ := setTrack_parts s
                { source with items := source.items.eraseP (fun i => i.id == iid) }
                h2 h3 h4 hmod1
              have hmod2 : ∀ i ∈ resolveOverlaps target.items { item with startFrame := ns } ++
                  [{ item with startFrame := ns }], itemWF i := by
                intro i hi
                rcases List.mem_append.mp hi with hi | hi
                · exact resolveOverlaps_wf _ _ (h2 target hm2.1) i hi
                · rw [List.mem_singleton.mp hi]
                  exact hmoved
              obtain ⟨q2, q3, q4⟩ := setTrack_parts
                (s.setTrack { source with items := source.items.eraseP (fun i => i.id == iid) })
                { target with items := resolveOverlaps target.items { item with startFrame := ns } ++ [{ item with startFrame := ns }] }
                p2 p3 p4 hmod2
              exact timelineInv_tail _ _ q2 q3 q4

theorem timelineInv_splitItem (s : TimelineState) (tid iid : Nat) (f : Int)
    (h : timelineInv s) : timelineInv (s.splitItem tid iid f).1 := by
  obtain ⟨h1, h2, h3, h4⟩ := h
  unfold TimelineState.splitItem
  cases hT : s.getTrack tid with
  | none => exact ⟨h1, h2, h3, h4⟩
  | some track =>
    have hm := getTrack_mem s tid track hT
    by_cases hL : track.isLocked
    · simp only [hL, if_true]
      exact ⟨h1, h2, h3, h4⟩
    · dsimp only
      rw [if_neg hL]
      cases hF : track.items.find? (fun i => i.id == iid) with
      | none => exact ⟨h1, h2, h3, h4⟩
      | some item =>
        dsimp only
        by_cases hg : f - item.startFrame ≤ 0 ∨ f - item.startFrame ≥ item.durationInFrames
        · rw [if_pos hg]
          exact ⟨h1, h2, h3, h4⟩
        · rw [if_neg hg]
          simp only [TimelineState.generateId]
          have hit : itemWF item := h2 track hm.1 item (List.mem_of_find?_eq_some hF)
          have hg2 : f - item.startFrame < item.durationInFrames := by
            rcases not_or.mp hg with ⟨-, hb⟩
            omega
          have hg1 : 0 < f - item.startFrame := by
            rcases not_or.mp hg with ⟨ha, -⟩
            omega
          have hmod : ∀ i ∈ updateFirstItem iid (fun _ => splitFirstPart item f) track.items ++ [splitSecondPart item s.nextId f], itemWF i := by
            intro i hi
            rcases List.mem_append.mp hi with hi | hi
            · refine updateFirstItem_wf _ _ _ (h2 track hm.1) ?_ i hi
              unfold splitFirstPart itemWF
              unfold itemWF at hit
              dsimp only
              omega
            · rw [List.mem_singleton.mp hi]
              unfold splitSecondPart itemWF
              unfold itemWF at hit
              dsimp only
              omega
          have hdom := split_trackEnds_dom track item iid s.nextId f
            { track with items := updateFirstItem iid (fun _ => splitFirstPart item f) track.items ++ [splitSecondPart item s.nextId f] }
            rfl hF hg2
          obtain ⟨p2, p3, p4⟩ := setTrack_parts { s with nextId := s.nextId + 1 }
            { track with items := updateFirstItem iid (fun _ => splitFirstPart item f) track.items ++ [splitSecondPart item s.nextId f] }
            h2 h3 (fun t ht => Nat.lt_succ_of_lt (h4 t ht)) hmod
          refine ⟨?_, p2, p3, fun t ht => Nat.lt_succ_of_lt (p4 t ht)⟩
          exact h1.trans (computeTotal_setTrack_eq s.tracks track
            { track with items := updateFirstItem iid (fun _ => splitFirstPart item f) track.items ++ [splitSecondPart item s.nextId f] }
            h3 hm.1 rfl hdom.1 hdom.2).symm

theorem timelineInv_step (s : TimelineState) (op : TimelineOp)
    (h : timelineInv s) (hwf : op.wf) (hnd : op.isDeleteTrack = false) :
    timelineInv (applyOp s op) := by
  cases op with
  | createTrack n k => exact timelineInv_createTrack s n k h
  | deleteTrack tid => simp [TimelineOp.isDeleteTrack] at hnd
  | addItem tid it f => exact timelineInv_addItem s tid it f h hwf
  | moveItem tid iid ns nt => exact timelineInv_moveItem s tid iid ns nt h hwf
  | trimItem tid iid a b => exact timelineInv_trimItem s tid iid a b h hwf
  | splitItem tid iid f => exact timelineInv_splitItem s tid iid f h
  | removeItem tid iid => exact timelineInv_removeItem s tid iid h
  | undo => exact timelineInv_undo s h
  | redo => exact timelineInv_redo s h

theorem timelineInv_run (ops : List TimelineOp) : ∀ s : TimelineState,
    timelineInv s → (∀ op ∈ ops, op.wf ∧ op.isDeleteTrack = false) →
    timelineInv (runOps s ops) := by
  induction ops with
  | nil => intro s h _; exact h
  | cons op rest ih =>
    intro s h hops
    have h1 := timelineInv_step s op h (hops op (List.mem_cons_self _ _)).1
      (hops op (List.mem_cons_self _ _)).2
    exact ih (applyOp s op) h1 fun o ho => hops o (List.mem_cons_of_mem op ho)

theorem timelineInv_init : timelineInv TimelineState.init := by
  refine ⟨rfl, ?_, List.Pairwise.nil, ?_⟩ <;> intro t ht <;>
    simp [TimelineState.init] at ht

/-- C2: counterexample — `deleteTrack` never recomputes the cached total:
after creating a track, adding an item occupying `[0,10)` and deleting the
track, the timeline has no tracks (hence no items) but `getTotalDuration()`
still returns 10 instead of 0. -/
theorem c2_counterexample :
    c2Final.tracks = [] ∧ c2Final.getTotalDuration = 10 := by decide

/-- C2 (amended): after any sequence of `createTrack`, `addItemToTrack`,
`moveItem`, `trimItem`, `splitItem`, `removeItemFromTrack`, `undo`, `redo`
whose numeric arguments respect the spec item model (start frames ≥ 0,
durations ≥ 1), `getTotalDuration()` equals the recomputed fold and is
exactly the maximum of `start + duration` over all current items — 0 when
no item exists, otherwise an attained item end bounding all others.
`deleteTrack` is excluded: it skips the recomputation (counterexample). -/
theorem c2_total_duration_fresh (ops : List TimelineOp)
    (hops : ∀ op ∈ ops, op.wf ∧ op.isDeleteTrack = false) :
    (runOps TimelineState.init ops).getTotalDuration =
      computeTotalDuration (runOps TimelineState.init ops).tracks ∧
    (allEnds (runOps TimelineState.init ops).tracks = [] →
      (runOps TimelineState.init ops).getTotalDuration = 0) ∧
    (∀ e ∈ allEnds (runOps TimelineState.init ops).tracks,
      e ≤ (runOps TimelineState.init ops).getTotalDuration) ∧
    (allEnds (runOps TimelineState.init ops).tracks ≠ [] →
      (runOps TimelineState.init ops).getTotalDuration ∈
        allEnds (runOps TimelineState.init ops).tracks) := by
  obtain ⟨h1, h2, -, -⟩ := timelineInv_run ops TimelineState.init timelineInv_init hops
  have htot : (runOps TimelineState.init ops).getTotalDuration =
      foldMax (allEnds (runOps TimelineState.init ops).tracks) := by
    show (runOps TimelineState.init ops).totalDuration = _
    rw [h1, computeTotalDuration_eq_foldMax]
  have hpos : ∀ e ∈ allEnds (runOps TimelineState.init ops).tracks, 1 ≤ e := by
    intro e he
    obtain ⟨t, ht, hte⟩ := exists_of_mem_allEnds _ e he
    unfold trackEnds at hte
    obtain ⟨i, hi, rfl⟩ := List.mem_map.mp hte
    have := h2 t ht i hi
    unfold itemWF at this
    omega
  refine ⟨h1, ?_, ?_, ?_⟩
  · intro hnil
    rw [htot, hnil]
    rfl
  · intro e he
    rw [htot]
    exact mem_le_foldMax _ e he
  · intro hne
    rw [htot]
    rcases foldl_max_cases (allEnds (runOps TimelineState.init ops).tracks) 0 with h0 | h0
    · exfalso
      obtain ⟨e, he⟩ := List.exists_mem_of_ne_nil _ hne
      have hle := mem_le_foldMax _ e he
      have h1e := hpos e he
      unfold foldMax at hle
      omega
    · exact h0

/-- Witness for C2: a concrete create/add/split/trim run in which the
cached total equals the attained maximum end (10). -/
theorem c2_witness :
    (runOps TimelineState.init c2Ops).getTotalDuration =
      computeTotalDuration (runOps TimelineState.init c2Ops).tracks ∧
    (runOps TimelineState.init c2Ops).getTotalDuration ∈
      allEnds (runOps TimelineState.init c2Ops).tracks := by
  obtain ⟨ha, -, -, hd⟩ := c2_total_duration_fresh c2Ops (by decide)
  exact ⟨ha, hd (by decide)⟩
